import Mathlib

/-!
# Settings core of opentrack (`facetracknoir/options.h`)

A shallow embedding of the `options` namespace: the tagged value `QVariant`,
the snapshot `group`, the two-tier `impl_bundle`, the observable `value<T>`,
and the theorems that settle what the specification says about them.

Layout: all definitions first, then the lemmas and theorems, grouped by the
operation they are about.
-/

namespace options

/-! ## Library types: `double`, `QVariant`, `QMap`, `QSettings` -/

/-- IEEE-754 binary64 datum, given by its three bit fields. -/
structure QDouble where
  sign : Bool
  exponent : Fin 2048
  fraction : Fin 4503599627370496
deriving DecidableEq, Repr

namespace QDouble

/-- Not-a-number: all exponent bits set and a non-zero fraction. -/
def isNaN (d : QDouble) : Bool := d.exponent == 2047 && d.fraction != 0

/-- Positive or negative zero. -/
def isZero (d : QDouble) : Bool := d.exponent == 0 && d.fraction == 0

/-- C++ `==` on `double`: a NaN equals nothing, the two zeros are equal,
every other pair is equal exactly when the bit fields agree. -/
def eq (a b : QDouble) : Bool :=
  !a.isNaN && !b.isNaN && (decide (a = b) || (a.isZero && b.isZero))

/-- The literal `0.0`. -/
def zero : QDouble := ⟨false, 0, 0⟩

/-- The literal `-0.0`. -/
def negZero : QDouble := ⟨true, 0, 0⟩

/-- The literal `1.0`. -/
def one : QDouble := ⟨false, 1023, 0⟩

/-- A quiet NaN. -/
def qNaN : QDouble := ⟨false, 2047, 2251799813685248⟩

end QDouble

/-- The `QVariant::Type` tags the settings core meets. -/
inductive QVariantType
  | Invalid
  | Bool
  | Int
  | Double
  | String
deriving DecidableEq, Repr

/-- `QVariant`: a tagged value; `invalid` is the default-constructed variant. -/
inductive QVariant
  | invalid
  | bool (b : Bool)
  | int (i : Int)
  | double (d : QDouble)
  | string (s : String)
deriving DecidableEq, Repr

/-- Conversions of the Qt library between text, integers and doubles whose
result depends on number parsing, formatting and rounding.  They are not part
of this repository; every definition that coerces takes them as a parameter
and every theorem holds for all of them. -/
structure QtConversions where
  stringToInt : String → Int
  stringToDouble : String → QDouble
  doubleToString : QDouble → String
  doubleToInt : QDouble → Int
  doubleToBool : QDouble → Bool
  intToDouble : Int → QDouble

/-- A sample library, for evaluating the definitions on concrete inputs.  It
reads decimal integers and is otherwise a placeholder; no theorem depends on
what it returns. -/
def QtConversions.sample : QtConversions where
  stringToInt s := (s.toInt?).getD 0
  stringToDouble _ := QDouble.zero
  doubleToString _ := ""
  doubleToInt _ := 0
  doubleToBool d := !d.isZero
  intToDouble _ := QDouble.zero

namespace QVariant

/-- `QVariant::type()`. -/
def type : QVariant → QVariantType
  | invalid => QVariantType.Invalid
  | bool _ => QVariantType.Bool
  | int _ => QVariantType.Int
  | double _ => QVariantType.Double
  | string _ => QVariantType.String

/-- Modelled from the spec: `QVariant::operator==` (Qt, not in the repository)
as value-equality of tagged values: the same tag and equal payloads, doubles
compared with C++ `==`; two invalid variants are equal; variants of different
tags are unequal ("not-equal implies write"). -/
def eq : QVariant → QVariant → Bool
  | invalid, invalid => true
  | bool a, bool b => a == b
  | int a, int b => a == b
  | double a, double b => QDouble.eq a b
  | string a, string b => a == b
  | _, _ => false

/-- `QVariant::operator!=`. -/
def ne (a b : QVariant) : Bool := !(eq a b)

/-- `QVariant::toInt()`: `0` for an invalid variant, `1`/`0` for a boolean. -/
def toInt (qt : QtConversions) : QVariant → Int
  | invalid => 0
  | bool b => if b then 1 else 0
  | int i => i
  | double d => qt.doubleToInt d
  | string s => qt.stringToInt s

/-- `QVariant::toString()`: empty for an invalid variant. -/
def toString (qt : QtConversions) : QVariant → String
  | invalid => ""
  | bool b => if b then "true" else "false"
  | int i => ToString.toString i
  | double d => qt.doubleToString d
  | string s => s

/-- `QVariant::toBool()`: numbers are true when non-zero, text is true unless
its lower-case form is empty, "0" or "false". -/
def toBool (qt : QtConversions) : QVariant → Bool
  | invalid => false
  | bool b => b
  | int i => i != 0
  | double d => qt.doubleToBool d
  | string s => !(s.toLower == "" || s.toLower == "0" || s.toLower == "false")

/-- `QVariant::toDouble()`: `0.0` for an invalid variant. -/
def toDouble (qt : QtConversions) : QVariant → QDouble
  | invalid => QDouble.zero
  | bool b => if b then QDouble.one else QDouble.zero
  | int i => qt.intToDouble i
  | double d => d
  | string s => qt.stringToDouble s

/-- The variant is a double holding a NaN. -/
def isDoubleNaN : QVariant → Bool
  | double d => d.isNaN
  | _ => false

/-- The variant is a double holding one of the two zeros. -/
def isDoubleZero : QVariant → Bool
  | double d => d.isZero
  | _ => false

end QVariant

/-- The four types `T` a `value<T>` is instantiated at. -/
inductive Ty
  | int
  | double
  | QString
  | bool
deriving DecidableEq, Repr

/-- The C++ type behind each `T`.  No operation of the settings core does
arithmetic on an `int`, so it is kept as an integer without a bound. -/
@[reducible]
def Ty.denote : Ty → Type
  | Ty.int => Int
  | Ty.double => QDouble
  | Ty.QString => String
  | Ty.bool => Bool

/-- The value-initialised `T()`: `0`, `0.0`, the empty text, `false`. -/
def Ty.zero : (T : Ty) → T.denote
  | Ty.int => (0 : Int)
  | Ty.double => QDouble.zero
  | Ty.QString => ""
  | Ty.bool => false

/-- The `QVariant::Type` tag of a variant made from a `T`. -/
def Ty.tag : Ty → QVariantType
  | Ty.int => QVariantType.Int
  | Ty.double => QVariantType.Double
  | Ty.QString => QVariantType.String
  | Ty.bool => QVariantType.Bool

/-- `qVariantFromValue<T>(x)`. -/
def qVariantFromValue : (T : Ty) → T.denote → QVariant
  | Ty.int, x => QVariant.int x
  | Ty.double, x => QVariant.double x
  | Ty.QString, x => QVariant.string x
  | Ty.bool, x => QVariant.bool x

/-- `qcruft_to_t<T>(t)` for the four value types: `toInt`, `toDouble`,
`toString`, `toBool`. -/
def qcruft_to_t (qt : QtConversions) : (T : Ty) → QVariant → T.denote
  | Ty.int, t => t.toInt qt
  | Ty.double, t => t.toDouble qt
  | Ty.QString, t => t.toString qt
  | Ty.bool, t => t.toBool qt

/-- `qcruft_to_t<QVariant>(t)`: the identity. -/
def qcruft_to_t_QVariant (t : QVariant) : QVariant := t

/-- `QMap<K, QVariant>`: a finite map, kept as an association list in which
the first entry of a key is the live one. -/
abbrev QMap (κ : Type) := List (κ × QVariant)

namespace QMap

variable {κ : Type} [DecidableEq κ]

/-- `QMap::value(k)`: the entry of `k`, a default-constructed (invalid)
variant when `k` is absent. -/
def value : QMap κ → κ → QVariant
  | [], _ => QVariant.invalid
  | (k', v) :: r, k => if k = k' then v else value r k

/-- `QMap::contains(k)`. -/
def contains : QMap κ → κ → Bool
  | [], _ => false
  | (k', _) :: r, k => if k = k' then true else contains r k

/-- The assignment `m[k] = v`: overwrite the entry of `k`, or add it. -/
def insert : QMap κ → κ → QVariant → QMap κ
  | [], k, v => [(k, v)]
  | (k', v') :: r, k, v => if k = k' then (k', v) :: r else (k', v') :: insert r k v

/-- `QMap::keys()`. -/
def keys (m : QMap κ) : List κ := m.map Prod.fst

end QMap

/-- Modelled from the spec: the backing store, Qt's `QSettings` over the ini
file that `group::group` and `group::save` both resolve (the `SettingsFile`
entry of the organisation settings, else `settings/default.ini`), as a map
from (section, key) to value. -/
abbrev QSettings := QMap (String × String)

namespace QSettings

/-- `beginGroup(g); value(k)`. -/
def value (s : QSettings) (g k : String) : QVariant := QMap.value s (g, k)

/-- `beginGroup(g); contains(k)`. -/
def contains (s : QSettings) (g k : String) : Bool := QMap.contains s (g, k)

/-- `beginGroup(g); setValue(k, v)`. -/
def setValue (s : QSettings) (g k : String) (v : QVariant) : QSettings :=
  QMap.insert s (g, k) v

/-- `beginGroup(g); childKeys()`: the keys of section `g`. -/
def childKeys (s : QSettings) (g : String) : List String :=
  ((QMap.keys s).filter (fun p => p.1 == g)).map Prod.snd

end QSettings

/-! ## `group`: snapshot of a section -/

/-- Class `group`. -/
structure group where
  map : QMap String
  name : String
deriving DecidableEq, Repr

namespace group

/-- Constructor `group(name)`: `for k in childKeys: map[k] = iniFile.value(k)`. -/
def ctor (iniFile : QSettings) (name : String) : group :=
  { map := (iniFile.childKeys name).foldl
      (fun m k => QMap.insert m k (iniFile.value name k)) []
    name := name }

/-- Method `group::save`: `for k in map.keys(): s.setValue(k, map[k])` inside
`beginGroup(name)`. -/
def save (g : group) (s : QSettings) : QSettings :=
  (QMap.keys g.map).foldl (fun s k => s.setValue g.name k (QMap.value g.map k)) s

/-- `group::get<T>(k)` is `qcruft_to_t<T>(map.value(k))`. -/
def get (qt : QtConversions) (g : group) (T : Ty) (k : String) : T.denote :=
  qcruft_to_t qt T (QMap.value g.map k)

/-- `group::get<QVariant>(k)`. -/
def get_QVariant (g : group) (k : String) : QVariant :=
  qcruft_to_t_QVariant (QMap.value g.map k)

/-- `group::put(s, d)` is `map[s] = d`. -/
def put (g : group) (s : String) (d : QVariant) : group :=
  { g with map := QMap.insert g.map s d }

/-- `group::contains(s)`. -/
def contains (g : group) (s : String) : Bool := QMap.contains g.map s

end group

/-! ## `impl_bundle` -/

/-- What an operation makes observable: the signals it emits, in order, and
the line `store` writes to `qDebug()`. -/
inductive Event
  | bundleChanged
  | reloaded
  | valueChanged (self_name : String) (datum : QVariant)
  | qDebug (name : String) (old : QVariant) (datum : QVariant)
deriving DecidableEq, Repr

/-- The event is a notification (a Qt signal), not debug output. -/
def Event.isSignal : Event → Bool
  | Event.qDebug _ _ _ => false
  | _ => true

/-- The event is a `valueChanged` signal. -/
def Event.isValueChanged : Event → Bool
  | Event.valueChanged _ _ => true
  | _ => false

/-- Class `impl_bundle` (the mutex is not part of the sequential state). -/
structure impl_bundle where
  group_name : String
  saved : group
  transient : group
  modified : Bool
deriving DecidableEq, Repr

namespace impl_bundle

/-- Constructor: `saved(group_name), transient(saved), modified(false)`. -/
def ctor (iniFile : QSettings) (group_name : String) : impl_bundle :=
  { group_name := group_name
    saved := group.ctor iniFile group_name
    transient := group.ctor iniFile group_name
    modified := false }

/-- Method `reload`: `saved = group(group_name); transient = saved; emit reloaded()`.
The slots connected to `reloaded` are run by `World.reload`. -/
def reload (b : impl_bundle) (iniFile : QSettings) : impl_bundle × List Event :=
  ({ b with saved := group.ctor iniFile b.group_name
            transient := group.ctor iniFile b.group_name },
   [Event.reloaded])

/-- Method `store(name, datum)`. -/
def store (b : impl_bundle) (name : String) (datum : QVariant) : impl_bundle × List Event :=
  if !b.transient.contains name || QVariant.ne datum (b.transient.get_QVariant name) then
    ({ b with modified := true, transient := b.transient.put name datum },
     (if !b.modified then [Event.qDebug name (b.transient.get_QVariant name) datum] else [])
       ++ [Event.bundleChanged])
  else
    (b, [])

/-- Method `contains(name)`. -/
def contains (b : impl_bundle) (name : String) : Bool := b.transient.contains name

/-- Method `get<T>(name)`. -/
def get (qt : QtConversions) (b : impl_bundle) (T : Ty) (name : String) : T.denote :=
  b.transient.get qt T name

/-- Method `get<QVariant>(name)`. -/
def get_QVariant (b : impl_bundle) (name : String) : QVariant :=
  b.transient.get_QVariant name

/-- Method `save`: `modified = false; saved = transient; transient.save()`.
Returns the bundle and the ini file written. -/
def save (b : impl_bundle) (iniFile : QSettings) : impl_bundle × QSettings :=
  ({ b with modified := false, saved := b.transient }, b.transient.save iniFile)

/-- Method `revert`: `modified = false; transient = saved; emit bundleChanged()`. -/
def revert (b : impl_bundle) : impl_bundle × List Event :=
  ({ b with modified := false, transient := b.saved }, [Event.bundleChanged])

/-- Method `modifiedp`. -/
def modifiedp (b : impl_bundle) : Bool := b.modified

/-- A run of `store` calls, in order; the bundle afterwards. -/
def storeAll (b : impl_bundle) : List (String × QVariant) → impl_bundle
  | [] => b
  | (k, v) :: r => storeAll (b.store k v).1 r

/-- Both snapshots carry the bundle's section name, as every constructed
bundle's do. -/
def wf (b : impl_bundle) : Prop :=
  b.saved.name = b.group_name ∧ b.transient.name = b.group_name

instance wfDecidable (b : impl_bundle) : Decidable b.wf :=
  inferInstanceAs (Decidable (b.saved.name = b.group_name ∧ b.transient.name = b.group_name))

end impl_bundle

/-! ## `value<T>` and the objects connected to a bundle -/

/-- Class `value<T>`: the key, the type and the default; the datum itself
lives in the bundle. -/
structure value where
  self_name : String
  T : Ty
  def_ : T.denote

namespace value

/-- The protected `value<T>::operator=(const QVariant& datum)`:
`foo = qcruft_to_t<T>(datum); b->store(self_name, qVariantFromValue<T>(foo));
emit valueChanged(foo)`. -/
def assign (qt : QtConversions) (v : value) (b : impl_bundle) (datum : QVariant) :
    impl_bundle × List Event :=
  ((b.store v.self_name (qVariantFromValue v.T (qcruft_to_t qt v.T datum))).1,
   (b.store v.self_name (qVariantFromValue v.T (qcruft_to_t qt v.T datum))).2
     ++ [Event.valueChanged v.self_name (qVariantFromValue v.T (qcruft_to_t qt v.T datum))])

/-- Slot `base_value::reread_value`: `operator=(b->get<QVariant>(self_name))`. -/
def reread_value (qt : QtConversions) (v : value) (b : impl_bundle) :
    impl_bundle × List Event :=
  v.assign qt b (b.get_QVariant v.self_name)

/-- Constructor `value(b, name, def)`: assign the default when the key is
absent or holds an invalid variant. -/
def ctor (qt : QtConversions) (v : value) (b : impl_bundle) : impl_bundle × List Event :=
  if !b.contains v.self_name
      || (b.get_QVariant v.self_name).type == QVariantType.Invalid then
    v.assign qt b (qVariantFromValue v.T v.def_)
  else
    (b, [])

/-- The conversion `operator T()`: `b->get<T>(self_name)`. -/
def read (qt : QtConversions) (v : value) (b : impl_bundle) : v.T.denote :=
  b.get qt v.T v.self_name

/-- The public `operator=(const T& datum)`. -/
def assignT (qt : QtConversions) (v : value) (b : impl_bundle) (datum : v.T.denote) :
    impl_bundle × List Event :=
  v.assign qt b (qVariantFromValue v.T datum)

/-- Slot `setValue(t datum)` for `t` one of the four slot types. -/
def setValue (qt : QtConversions) (v : value) (b : impl_bundle) (t : Ty) (datum : t.denote) :
    impl_bundle × List Event :=
  v.assign qt b (qVariantFromValue t datum)

end value

/-- The `reread_value` slots connected to `reloaded`, run in connection order. -/
def rereadAll (qt : QtConversions) : List value → impl_bundle → impl_bundle × List Event
  | [], b => (b, [])
  | v :: vs, b =>
    ((rereadAll qt vs (v.reread_value qt b).1).1,
     (v.reread_value qt b).2 ++ (rereadAll qt vs (v.reread_value qt b).1).2)

/-- One bundle with the ini file behind it, the values constructed on it (in
order of construction, which is the order their slots are connected) and
everything emitted so far. -/
structure World where
  iniFile : QSettings
  b : impl_bundle
  values : List value
  log : List Event

/-- The calls a client can make on a `World`. -/
inductive Op
  | store (name : String) (datum : QVariant)
  | save
  | revert
  | reload
  | construct (v : value)
  | assign (i : Nat) (datum : QVariant)
  | external (iniFile : QSettings)

namespace World

/-- A bundle freshly constructed for section `name`, nothing attached. -/
def init (iniFile : QSettings) (name : String) : World :=
  { iniFile := iniFile, b := impl_bundle.ctor iniFile name, values := [], log := [] }

/-- The call `b->reload()` with the slots it triggers synchronously. -/
def reload (qt : QtConversions) (w : World) : World :=
  { w with
    b := (rereadAll qt w.values (w.b.reload w.iniFile).1).1
    log := w.log ++ (w.b.reload w.iniFile).2
             ++ (rereadAll qt w.values (w.b.reload w.iniFile).1).2 }

/-- One call: `store`, `save`, `revert`, `reload`, the construction of a
`value<T>`, an assignment to the i-th constructed value, or a rewrite of the
ini file by somebody else. -/
def step (qt : QtConversions) (w : World) : Op → World
  | Op.store name datum =>
    { w with b := (w.b.store name datum).1, log := w.log ++ (w.b.store name datum).2 }
  | Op.save =>
    { w with b := (w.b.save w.iniFile).1, iniFile := (w.b.save w.iniFile).2 }
  | Op.revert =>
    { w with b := w.b.revert.1, log := w.log ++ w.b.revert.2 }
  | Op.reload => w.reload qt
  | Op.construct v =>
    { w with b := (v.ctor qt w.b).1, values := w.values ++ [v], log := w.log ++ (v.ctor qt w.b).2 }
  | Op.assign i datum =>
    match w.values.get? i with
    | some v => { w with b := (v.assign qt w.b datum).1, log := w.log ++ (v.assign qt w.b datum).2 }
    | none => w
  | Op.external iniFile => { w with iniFile := iniFile }

/-- A sequence of calls, in order. -/
def run (qt : QtConversions) (w : World) (ops : List Op) : World :=
  ops.foldl (step qt) w

end World

/-! ## Controls and the queued connections of `tie_setting` -/

/-- Modelled from the spec: a control of the user interface (spin box, slider,
check box).  It shows one datum, and its setter (`setValue`, `setChecked`)
raises the control's own change event (`valueChanged`, `toggled`), carrying
the new datum, only when the datum shown actually changes. -/
structure Control where
  shown : QVariant
deriving DecidableEq, Repr

/-- The setter of a control: the control afterwards and the change events it
raised. -/
def Control.set (c : Control) (x : QVariant) : Control × List QVariant :=
  if x = c.shown then (c, []) else ({ shown := x }, [x])

/-- A slot invocation posted to the event queue by a connection of type
`CONNTYPE`, which is `Qt::QueuedConnection`: the value's slot `setValue`,
posted by a control's change event, or the setter of the i-th control,
posted by the value's `valueChanged`. -/
inductive Posted
  | setValue (datum : QVariant)
  | controlSet (i : Nat) (datum : QVariant)
deriving DecidableEq, Repr

/-- One `value<T>` on its bundle, the controls tied to it (in the order of
the `tie_setting` calls), the event queue (oldest first), the signals raised
by the bundle and the value, and the change events raised by the controls
(which control, which datum). -/
structure Gui where
  b : impl_bundle
  v : value
  controls : List Control
  queue : List Posted
  log : List Event
  changed : List (Nat × QVariant)

namespace Gui

/-- A `value<T>` constructed on bundle `b`, nothing tied yet. -/
def init (qt : QtConversions) (b : impl_bundle) (v : value) : Gui :=
  { b := (v.ctor qt b).1, v := v, controls := [], queue := [],
    log := (v.ctor qt b).2, changed := [] }

/-- The value's `operator=(const QVariant&)` with its connections: the store,
then `emit valueChanged(foo)`, which posts the setter of every tied control. -/
def assign (qt : QtConversions) (g : Gui) (datum : QVariant) : Gui :=
  { g with
    b := (g.v.assign qt g.b datum).1
    log := g.log ++ (g.v.assign qt g.b datum).2
    queue := g.queue ++ (List.range g.controls.length).map
      (fun i => Posted.controlSet i (qVariantFromValue g.v.T (qcruft_to_t qt g.v.T datum))) }

/-- The setter of the i-th control is called: by the event loop, by
`tie_setting`, or by the user acting on the control.  A change event it
raises posts the value's slot `setValue`. -/
def controlSet (g : Gui) (i : Nat) (x : QVariant) : Gui :=
  match g.controls.get? i with
  | none => g
  | some c =>
    { g with
      controls := g.controls.set i (c.set x).1
      changed := g.changed ++ (c.set x).2.map (fun d => (i, d))
      queue := g.queue ++ (c.set x).2.map Posted.setValue }

/-- The symmetric `tie_setting(v, control)`: connect the control's change
event to `v.setValue` and `v.valueChanged` to the control's setter, both
queued, then call the control's setter with the value read through
`operator T()`. -/
def tie_setting (qt : QtConversions) (g : Gui) (c : Control) : Gui :=
  controlSet { g with controls := g.controls ++ [c] } g.controls.length
    (qVariantFromValue g.v.T (g.v.read qt g.b))

/-- The event loop delivers the oldest posted invocation. -/
def dispatch (qt : QtConversions) (g : Gui) : Gui :=
  match g.queue with
  | [] => g
  | Posted.setValue d :: rest => assign qt { g with queue := rest } d
  | Posted.controlSet i x :: rest => controlSet { g with queue := rest } i x

/-- The event loop runs until the queue is empty, for at most `fuel`
deliveries. -/
def processEvents (qt : QtConversions) : Nat → Gui → Gui
  | 0, g => g
  | fuel + 1, g => if g.queue.isEmpty then g else processEvents qt fuel (dispatch qt g)

/-- The scenario of two numeric controls: a `value<int>` with default `0` on
key "k" of the bundle of an empty section, tied to two controls showing `0`. -/
def twoControls (qt : QtConversions) : Gui :=
  tie_setting qt
    (tie_setting qt (init qt (impl_bundle.ctor [] "s") (value.mk "k" Ty.int (0 : Int)))
      { shown := QVariant.int 0 })
    { shown := QVariant.int 0 }

/-- The scenario of one toggle: a `value<bool>` with default `false` on key
"k" of the bundle of an empty section, tied to an unchecked check box. -/
def oneToggle (qt : QtConversions) : Gui :=
  tie_setting qt (init qt (impl_bundle.ctor [] "s") (value.mk "k" Ty.bool false))
    { shown := QVariant.bool false }

end Gui

/-! ## Lemmas -/

section lemmas

variable {κ : Type} [DecidableEq κ]

theorem QMap.value_insert (m : QMap κ) (k k' : κ) (v : QVariant) :
    QMap.value (QMap.insert m k v) k' = if k' = k then v else QMap.value m k' := by
  induction m with
  | nil => simp [QMap.insert, QMap.value]
  | cons hd tl ih =>
    obtain ⟨a, x⟩ := hd
    by_cases h : k = a
    · subst h
      by_cases h2 : k' = k <;> simp [QMap.insert, QMap.value, h2]
    · by_cases h2 : k' = a
      · subst h2
        have : ¬ k' = k := fun e => h e.symm
        simp [QMap.insert, QMap.value, h, this]
      · simp [QMap.insert, QMap.value, h, h2, ih]

theorem QMap.contains_insert (m : QMap κ) (k k' : κ) (v : QVariant) :
    QMap.contains (QMap.insert m k v) k' = (decide (k' = k) || QMap.contains m k') := by
  induction m with
  | nil => simp [QMap.insert, QMap.contains]
  | cons hd tl ih =>
    obtain ⟨a, x⟩ := hd
    by_cases h : k = a
    · subst h
      by_cases h2 : k' = k <;> simp [QMap.insert, QMap.contains, h2]
    · by_cases h2 : k' = a
      · subst h2
        simp [QMap.insert, QMap.contains, h]
      · simp [QMap.insert, QMap.contains, h, h2, ih]

theorem QMap.contains_iff_mem_keys (m : QMap κ) (k : κ) :
    QMap.contains m k = true ↔ k ∈ QMap.keys m := by
  induction m with
  | nil => simp [QMap.contains, QMap.keys]
  | cons hd tl ih =>
    obtain ⟨a, x⟩ := hd
    by_cases h : k = a
    · simp [QMap.contains, QMap.keys, h]
    · simp only [QMap.contains, h, if_false, ih]
      simp [QMap.keys, h]

theorem QMap.value_of_not_contains (m : QMap κ) (k : κ) (h : QMap.contains m k = false) :
    QMap.value m k = QVariant.invalid := by
  induction m with
  | nil => rfl
  | cons hd tl ih =>
    obtain ⟨a, x⟩ := hd
    by_cases h2 : k = a
    · simp [QMap.contains, h2] at h
    · simp only [QMap.contains, h2, if_false] at h
      simp [QMap.value, h2, ih h]

theorem QDouble.double_eq_comm (a b : QDouble) : QDouble.eq a b = QDouble.eq b a := by
  unfold QDouble.eq
  by_cases h : a = b
  · subst h; rfl
  · have h2 : ¬ b = a := fun e => h e.symm
    simp only [h, h2, decide_False, Bool.false_or]
    cases a.isNaN <;> cases b.isNaN <;> cases a.isZero <;> cases b.isZero <;> rfl

theorem QVariant.variant_eq_comm (a b : QVariant) : QVariant.eq a b = QVariant.eq b a := by
  cases a <;> cases b <;> simp [QVariant.eq, QDouble.double_eq_comm, Bool.beq_comm, eq_comm]

end lemmas

/-! ## `impl_bundle::store` -/

/-- C1: when the key is absent from `transient`, or its entry is not equal to
the datum, `store(k, v)` leaves `transient` containing `k`, `get<QVariant>(k)`
returns `v`, `modifiedp()` is true, and the call raised `bundleChanged` exactly
once and no other signal. -/
theorem store_writes (b : impl_bundle) (k : String) (v : QVariant)
    (h : b.transient.contains k = false ∨ QVariant.eq (b.transient.get_QVariant k) v = false) :
    (b.store k v).1.transient.contains k = true
      ∧ (b.store k v).1.get_QVariant k = v
      ∧ (b.store k v).1.modifiedp = true
      ∧ (b.store k v).2.count Event.bundleChanged = 1
      ∧ (b.store k v).2.filter Event.isSignal = [Event.bundleChanged] := by
  have hc : (!b.transient.contains k || QVariant.ne v (b.transient.get_QVariant k)) = true := by
    rcases h with h | h
    · simp [h]
    · rw [QVariant.variant_eq_comm] at h
      simp [QVariant.ne, h]
  unfold impl_bundle.store
  rw [if_pos hc]
  refine ⟨?_, ?_, rfl, ?_, ?_⟩
  · simp [group.put, group.contains, QMap.contains_insert]
  · simp [impl_bundle.get_QVariant, group.get_QVariant, group.put, qcruft_to_t_QVariant,
      QMap.value_insert]
  · cases b.modified <;> simp [List.count_cons]
  · cases b.modified <;> simp [List.filter, Event.isSignal]

/-- C1 at a concrete input: an empty bundle, key "a", datum `5`. -/
theorem store_writes_witness :
    (impl_bundle.ctor [] "s").transient.contains "a" = false
      ∧ ((impl_bundle.ctor [] "s").store "a" (QVariant.int 5)).1.get_QVariant "a"
          = QVariant.int 5 :=
  ⟨by decide, (store_writes (impl_bundle.ctor [] "s") "a" (QVariant.int 5)
    (Or.inl (by decide))).2.1⟩

/-- C2: when `transient` contains the key with an entry equal to the datum,
`store(k, v)` is a no-op: the bundle (`transient`, `saved`, the `modified`
flag) is unchanged and nothing is emitted. -/
theorem store_equal_noop (b : impl_bundle) (k : String) (v : QVariant)
    (hc : b.transient.contains k = true)
    (he : QVariant.eq (b.transient.get_QVariant k) v = true) :
    b.store k v = (b, []) := by
  rw [QVariant.variant_eq_comm] at he
  unfold impl_bundle.store
  simp [hc, QVariant.ne, he]

/-- C2 at a concrete input: storing `5` twice under "a". -/
theorem store_equal_noop_witness :
    (((impl_bundle.ctor [] "s").store "a" (QVariant.int 5)).1.store "a" (QVariant.int 5))
      = (((impl_bundle.ctor [] "s").store "a" (QVariant.int 5)).1, []) :=
  store_equal_noop _ "a" (QVariant.int 5) (by decide) (by decide)

/-! ## The dirty flag: `modified == false` implies `transient == saved` -/

theorem impl_bundle.store_cases (b : impl_bundle) (k : String) (v : QVariant) :
    (b.store k v).1 = b
      ∨ (b.store k v).1 = { b with modified := true, transient := b.transient.put k v } := by
  unfold impl_bundle.store
  split <;> simp

theorem impl_bundle.store_saved (b : impl_bundle) (k : String) (v : QVariant) :
    (b.store k v).1.saved = b.saved := by
  rcases impl_bundle.store_cases b k v with h | h <;> rw [h]

theorem impl_bundle.store_group_name (b : impl_bundle) (k : String) (v : QVariant) :
    (b.store k v).1.group_name = b.group_name := by
  rcases impl_bundle.store_cases b k v with h | h <;> rw [h]

theorem impl_bundle.store_clean (b : impl_bundle) (k : String) (v : QVariant)
    (hb : b.modified = false → b.transient = b.saved) :
    (b.store k v).1.modified = false → (b.store k v).1.transient = (b.store k v).1.saved := by
  rcases impl_bundle.store_cases b k v with h | h <;> rw [h]
  · exact hb
  · intro hm; cases hm

theorem value.assign_clean (qt : QtConversions) (x : value) (b : impl_bundle) (d : QVariant)
    (hb : b.modified = false → b.transient = b.saved) :
    (x.assign qt b d).1.modified = false → (x.assign qt b d).1.transient = (x.assign qt b d).1.saved :=
  impl_bundle.store_clean b _ _ hb

theorem rereadAll_clean (qt : QtConversions) (vs : List value) (b : impl_bundle)
    (hb : b.modified = false → b.transient = b.saved) :
    (rereadAll qt vs b).1.modified = false
      → (rereadAll qt vs b).1.transient = (rereadAll qt vs b).1.saved := by
  induction vs generalizing b with
  | nil => exact hb
  | cons x xs ih => exact ih _ (value.assign_clean qt x b _ hb)

theorem value.ctor_clean (qt : QtConversions) (x : value) (b : impl_bundle)
    (hb : b.modified = false → b.transient = b.saved) :
    (x.ctor qt b).1.modified = false → (x.ctor qt b).1.transient = (x.ctor qt b).1.saved := by
  unfold value.ctor
  split
  · exact value.assign_clean qt x b _ hb
  · exact hb

theorem World.step_clean (qt : QtConversions) (w : World) (op : Op)
    (hb : w.b.modified = false → w.b.transient = w.b.saved) :
    (w.step qt op).b.modified = false → (w.step qt op).b.transient = (w.step qt op).b.saved := by
  cases op with
  | store name datum => exact impl_bundle.store_clean w.b name datum hb
  | save => intro _; rfl
  | revert => intro _; rfl
  | reload => exact rereadAll_clean qt w.values _ (fun _ => rfl)
  | construct x => exact value.ctor_clean qt x w.b hb
  | assign i datum =>
    simp only [World.step]
    cases w.values.get? i with
    | none => exact hb
    | some x => exact value.assign_clean qt x w.b datum hb
  | external iniFile => exact hb

theorem World.run_clean (qt : QtConversions) (ops : List Op) (w : World)
    (hb : w.b.modified = false → w.b.transient = w.b.saved) :
    (w.run qt ops).b.modified = false → (w.run qt ops).b.transient = (w.run qt ops).b.saved := by
  induction ops generalizing w with
  | nil => exact hb
  | cons op rest ih => exact ih (w.step qt op) (World.step_clean qt w op hb)

/-- C3: in every state reached from construction by `store`, `save`, `revert`
and `reload` calls, by constructing values on the bundle, by assigning to
them (which covers the stores they make at construction and on `reloaded`),
and by outside rewrites of the ini file: when `modified` is false,
`transient` and `saved` are the same snapshot, so they hold the same keys
with the same values. -/
theorem modified_false_transient_eq_saved (qt : QtConversions) (iniFile : QSettings)
    (name : String) (ops : List Op)
    (h : ((World.init iniFile name).run qt ops).b.modifiedp = false) :
    ((World.init iniFile name).run qt ops).b.transient
        = ((World.init iniFile name).run qt ops).b.saved
      ∧ ∀ k, ((World.init iniFile name).run qt ops).b.transient.contains k
              = ((World.init iniFile name).run qt ops).b.saved.contains k
          ∧ ((World.init iniFile name).run qt ops).b.transient.get_QVariant k
              = ((World.init iniFile name).run qt ops).b.saved.get_QVariant k := by
  have key := World.run_clean qt ops (World.init iniFile name) (fun _ => rfl) h
  exact ⟨key, fun k => by rw [key]; exact ⟨rfl, rfl⟩⟩

/-- C3 at a concrete run: construct a `value<int>` with default 7, store,
reload, save. -/
theorem modified_false_transient_eq_saved_witness :
    ((World.init [(("s", "a"), QVariant.int 1)] "s").run QtConversions.sample
        [Op.construct ⟨"k", Ty.int, (7 : Int)⟩, Op.store "a" (QVariant.int 2),
         Op.reload, Op.save]).b.modifiedp = false
      ∧ ((World.init [(("s", "a"), QVariant.int 1)] "s").run QtConversions.sample
          [Op.construct ⟨"k", Ty.int, (7 : Int)⟩, Op.store "a" (QVariant.int 2),
           Op.reload, Op.save]).b.transient.get_QVariant "k" = QVariant.int 0 :=
  ⟨by decide,
   ((modified_false_transient_eq_saved QtConversions.sample
      [(("s", "a"), QVariant.int 1)] "s"
      [Op.construct ⟨"k", Ty.int, (7 : Int)⟩, Op.store "a" (QVariant.int 2),
       Op.reload, Op.save] (by decide)).2 "k").2.trans (by decide)⟩

/-! ## `revert` -/

theorem impl_bundle.storeAll_saved (l : List (String × QVariant)) (b : impl_bundle) :
    (b.storeAll l).saved = b.saved := by
  induction l generalizing b with
  | nil => rfl
  | cons hd tl ih =>
    obtain ⟨k, v⟩ := hd
    simp only [impl_bundle.storeAll]
    rw [ih, impl_bundle.store_saved]

/-- C4: after any run of `store` calls following construction, or following
a `save()`, `revert()` makes `transient` the snapshot it was at that
construction or `save()`: every key reads as it did then, keys added since
are absent again, and `modifiedp()` returns false. -/
theorem revert_restores (iniFile : QSettings) (name : String) (b : impl_bundle)
    (l : List (String × QVariant)) :
    (((impl_bundle.ctor iniFile name).storeAll l).revert.1.transient
        = (impl_bundle.ctor iniFile name).transient
      ∧ ((impl_bundle.ctor iniFile name).storeAll l).revert.1.modifiedp = false)
    ∧ (((b.save iniFile).1.storeAll l).revert.1.transient = (b.save iniFile).1.transient
      ∧ ((b.save iniFile).1.storeAll l).revert.1.modifiedp = false)
    ∧ (∀ k, ((b.save iniFile).1.storeAll l).revert.1.contains k = (b.save iniFile).1.contains k
          ∧ ((b.save iniFile).1.storeAll l).revert.1.get_QVariant k
              = (b.save iniFile).1.get_QVariant k) := by
  have h1 : ((impl_bundle.ctor iniFile name).storeAll l).revert.1.transient
      = (impl_bundle.ctor iniFile name).transient := by
    simp only [impl_bundle.revert, impl_bundle.storeAll_saved]
    rfl
  have h2 : ((b.save iniFile).1.storeAll l).revert.1.transient
      = (b.save iniFile).1.transient := by
    simp only [impl_bundle.revert, impl_bundle.storeAll_saved]
    rfl
  refine ⟨⟨h1, rfl⟩, ⟨h2, rfl⟩, fun k => ?_⟩
  unfold impl_bundle.contains impl_bundle.get_QVariant
  rw [h2]
  exact ⟨rfl, rfl⟩

/-! ## `group`: reading a section and writing it back -/

section fold

variable {α κ : Type} [DecidableEq κ]

theorem QMap.value_foldl_insert (key : α → κ) (F : κ → QVariant) (ks : List α) (m : QMap κ)
    (k : κ) :
    QMap.value (ks.foldl (fun m a => QMap.insert m (key a) (F (key a))) m) k
      = if k ∈ ks.map key then F k else QMap.value m k := by
  induction ks generalizing m with
  | nil => simp
  | cons a as ih =>
    simp only [List.foldl_cons, ih, QMap.value_insert, List.map_cons, List.mem_cons]
    by_cases h1 : k ∈ as.map key
    · simp [h1]
    · by_cases h2 : k = key a
      · subst h2; simp [h1]
      · simp [h1, h2]

theorem QMap.contains_foldl_insert (key : α → κ) (F : κ → QVariant) (ks : List α) (m : QMap κ)
    (k : κ) :
    QMap.contains (ks.foldl (fun m a => QMap.insert m (key a) (F (key a))) m) k
      = (decide (k ∈ ks.map key) || QMap.contains m k) := by
  induction ks generalizing m with
  | nil => simp
  | cons a as ih =>
    simp only [List.foldl_cons, ih, QMap.contains_insert, List.map_cons, List.mem_cons]
    by_cases h1 : k ∈ as.map key
    · simp [h1]
    · by_cases h2 : k = key a
      · subst h2; simp [h1]
      · simp [h1, h2]

end fold

theorem QSettings.mem_childKeys (s : QSettings) (g k : String) :
    k ∈ s.childKeys g ↔ s.contains g k = true := by
  unfold QSettings.childKeys QSettings.contains
  rw [QMap.contains_iff_mem_keys]
  simp only [List.mem_map, List.mem_filter, beq_iff_eq]
  constructor
  · rintro ⟨⟨g', k'⟩, ⟨hm, hg⟩, hk⟩
    simp only at hg hk
    subst hg; subst hk
    exact hm
  · intro hm
    exact ⟨(g, k), ⟨hm, rfl⟩, rfl⟩

theorem group.ctor_contains (s : QSettings) (n k : String) :
    (group.ctor s n).contains k = s.contains n k := by
  unfold group.ctor group.contains
  simp only
  have h : QMap.contains ((s.childKeys n).foldl
        (fun m a => QMap.insert m a (s.value n a)) []) k
      = (decide (k ∈ s.childKeys n) || QMap.contains ([] : QMap String) k) := by
    simpa using QMap.contains_foldl_insert (fun a : String => a) (fun a => s.value n a)
      (s.childKeys n) [] k
  rw [h]
  by_cases hc : s.contains n k = true
  · simp [hc, (QSettings.mem_childKeys s n k).2 hc, QMap.contains]
  · have hn : ¬ k ∈ s.childKeys n := fun hm => hc ((QSettings.mem_childKeys s n k).1 hm)
    simp only [Bool.not_eq_true] at hc
    simp [hc, hn, QMap.contains]

theorem group.ctor_get_QVariant (s : QSettings) (n k : String) :
    (group.ctor s n).get_QVariant k = s.value n k := by
  unfold group.ctor group.get_QVariant qcruft_to_t_QVariant
  simp only
  have h : QMap.value ((s.childKeys n).foldl
        (fun m a => QMap.insert m a (s.value n a)) []) k
      = if k ∈ s.childKeys n then s.value n k else QMap.value ([] : QMap String) k := by
    simpa using QMap.value_foldl_insert (fun a : String => a) (fun a => s.value n a)
      (s.childKeys n) [] k
  rw [h]
  by_cases hc : s.contains n k = true
  · simp [(QSettings.mem_childKeys s n k).2 hc]
  · have hn : ¬ k ∈ s.childKeys n := fun hm => hc ((QSettings.mem_childKeys s n k).1 hm)
    simp only [Bool.not_eq_true] at hc
    simp only [hn, if_false, QMap.value]
    exact (QMap.value_of_not_contains s (n, k) hc).symm

theorem group.ctor_name (s : QSettings) (n : String) : (group.ctor s n).name = n := rfl

theorem group.save_value (g : group) (s : QSettings) (n k : String) :
    (g.save s).value n k
      = if n = g.name ∧ g.contains k = true then g.get_QVariant k else s.value n k := by
  unfold group.save QSettings.value QSettings.setValue group.get_QVariant qcruft_to_t_QVariant
  have h := QMap.value_foldl_insert (fun a : String => (g.name, a))
    (fun p : String × String => QMap.value g.map p.2) (QMap.keys g.map) s (n, k)
  simp only at h
  rw [h]
  have hiff : (n, k) ∈ (QMap.keys g.map).map (fun a : String => (g.name, a))
      ↔ (n = g.name ∧ g.contains k = true) := by
    unfold group.contains
    rw [QMap.contains_iff_mem_keys]
    simp only [List.mem_map, Prod.mk.injEq]
    constructor
    · rintro ⟨a, ha, h1, h2⟩
      subst h2
      exact ⟨h1.symm, ha⟩
    · rintro ⟨h1, h2⟩
      exact ⟨k, h2, h1.symm, rfl⟩
  by_cases hc : n = g.name ∧ g.contains k = true
  · rw [if_pos (hiff.2 hc), if_pos hc]
  · rw [if_neg (fun hm => hc (hiff.1 hm)), if_neg hc]

theorem group.save_contains (g : group) (s : QSettings) (n k : String) :
    (g.save s).contains n k
      = (decide (n = g.name ∧ g.contains k = true) || s.contains n k) := by
  unfold group.save QSettings.contains QSettings.setValue
  have h := QMap.contains_foldl_insert (fun a : String => (g.name, a))
    (fun p : String × String => QMap.value g.map p.2) (QMap.keys g.map) s (n, k)
  simp only at h
  rw [h]
  have hiff : (n, k) ∈ (QMap.keys g.map).map (fun a : String => (g.name, a))
      ↔ (n = g.name ∧ g.contains k = true) := by
    unfold group.contains
    rw [QMap.contains_iff_mem_keys]
    simp only [List.mem_map, Prod.mk.injEq]
    constructor
    · rintro ⟨a, ha, h1, h2⟩
      subst h2
      exact ⟨h1.symm, ha⟩
    · rintro ⟨h1, h2⟩
      exact ⟨k, h2, h1.symm, rfl⟩
  congr 1
  exact decide_eq_decide.2 hiff

/-- C10, as amended: after `g.save()`, every key of `g`'s map is in section
`g.name` of the ini file with the map's value; every key of that section that
is not in `g`'s map, and every key of every other section, is there exactly
when it was before the call, with the value it had. -/
theorem group_save_merges (g : group) (s : QSettings) (n k : String) :
    (g.save s).contains n k
        = (if n = g.name ∧ g.contains k = true then true else s.contains n k)
      ∧ (g.save s).value n k
        = (if n = g.name ∧ g.contains k = true then g.get_QVariant k else s.value n k) := by
  refine ⟨?_, group.save_value g s n k⟩
  rw [group.save_contains]
  by_cases hc : n = g.name ∧ g.contains k = true
  · simp only [hc, and_self, decide_True, Bool.true_or, if_true]
  · simp only [hc, decide_False, Bool.false_or, if_false]

/-- C10 fails as stated: a group read from the empty section "s" is given key
"b"; meanwhile section "s" of the ini file has received key "a"; after
`save()` key "a", which is not in the group's map, is still in section "s"
with its old value. -/
theorem group_save_keeps_stale_key :
    ((group.ctor [] "s").put "b" (QVariant.int 2)).contains "a" = false
      ∧ (((group.ctor [] "s").put "b" (QVariant.int 2)).save
          [(("s", "a"), QVariant.int 1)]).contains "s" "a" = true
      ∧ (((group.ctor [] "s").put "b" (QVariant.int 2)).save
          [(("s", "a"), QVariant.int 1)]).value "s" "a" = QVariant.int 1 := by
  decide

/-! ## Coercion round trip and the equality gate -/

theorem qcruft_to_t_qVariantFromValue (qt : QtConversions) (T : Ty) (x : T.denote) :
    qcruft_to_t qt T (qVariantFromValue T x) = x := by
  cases T <;> rfl

theorem qcruft_to_t_invalid (qt : QtConversions) (T : Ty) :
    qcruft_to_t qt T QVariant.invalid = T.zero := by
  cases T <;> rfl

theorem qVariantFromValue_type (T : Ty) (x : T.denote) :
    (qVariantFromValue T x).type = T.tag := by
  cases T <;> rfl

theorem QDouble.eq_cases (a b : QDouble) (h : QDouble.eq a b = true) :
    b = a ∨ (a.isZero = true ∧ b.isZero = true) := by
  unfold QDouble.eq at h
  simp only [Bool.and_eq_true, Bool.or_eq_true, decide_eq_true_eq] at h
  rcases h.2 with h2 | h2
  · exact Or.inl h2.symm
  · exact Or.inr h2

theorem QVariant.eq_qVariantFromValue (T : Ty) (x : T.denote) (e : QVariant)
    (h : QVariant.eq (qVariantFromValue T x) e = true) :
    e = qVariantFromValue T x
      ∨ ((qVariantFromValue T x).isDoubleZero = true ∧ e.isDoubleZero = true) := by
  cases T <;> cases e <;> simp [qVariantFromValue, QVariant.eq] at h
  · exact Or.inl (by rw [h]; rfl)
  · rcases QDouble.eq_cases _ _ h with h2 | h2
    · exact Or.inl (by rw [h2]; rfl)
    · exact Or.inr h2
  · exact Or.inl (by rw [h]; rfl)
  · exact Or.inl (by rw [h]; rfl)

theorem QDouble.eq_of_isZero (a b : QDouble) (ha : a.isZero = true) (hb : b.isZero = true) :
    QDouble.eq a b = true := by
  unfold QDouble.isZero at ha hb
  simp only [Bool.and_eq_true, beq_iff_eq] at ha hb
  unfold QDouble.eq QDouble.isNaN QDouble.isZero
  simp [ha.1, ha.2, hb.1, hb.2]

theorem QVariant.eq_self (v : QVariant) : QVariant.eq v v = !v.isDoubleNaN := by
  cases v with
  | invalid => rfl
  | bool b => simp [QVariant.eq, QVariant.isDoubleNaN]
  | int i => simp [QVariant.eq, QVariant.isDoubleNaN]
  | string t => simp [QVariant.eq, QVariant.isDoubleNaN]
  | double d =>
    simp only [QVariant.eq, QVariant.isDoubleNaN, QDouble.eq]
    cases d.isNaN <;> simp

theorem qVariantFromValue_eq_of_read (T : Ty) (v r : T.denote)
    (h : r = v ∨ ((qVariantFromValue T v).isDoubleZero = true
        ∧ (qVariantFromValue T r).isDoubleZero = true)) :
    QVariant.eq (qVariantFromValue T r) (qVariantFromValue T v)
      = !(qVariantFromValue T v).isDoubleNaN := by
  rcases h with h | h
  · rw [h, QVariant.eq_self]
  · cases T <;> simp [qVariantFromValue, QVariant.isDoubleZero] at h
    have hz : QDouble.isZero v = true := h.1
    have hnan : QDouble.isNaN v = false := by
      unfold QDouble.isZero at hz
      simp only [Bool.and_eq_true, beq_iff_eq] at hz
      unfold QDouble.isNaN
      simp [hz.1]
    show QDouble.eq r v = !QDouble.isNaN v
    rw [hnan, QDouble.eq_of_isZero r v h.2 h.1]
    rfl

theorem impl_bundle.store_entry (b : impl_bundle) (k : String) (d : QVariant) :
    (b.store k d).1.transient.contains k = true
      ∧ (b.store k d).1.transient.name = b.transient.name
      ∧ ((b.store k d).1.get_QVariant k = d
          ∨ QVariant.eq d ((b.store k d).1.get_QVariant k) = true) := by
  unfold impl_bundle.store
  split
  · refine ⟨?_, rfl, Or.inl ?_⟩
    · simp [group.put, group.contains, QMap.contains_insert]
    · simp [impl_bundle.get_QVariant, group.get_QVariant, group.put, qcruft_to_t_QVariant,
        QMap.value_insert]
  · rename_i h
    simp only [Bool.or_eq_true, Bool.not_eq_true', not_or, Bool.not_eq_false,
      Bool.not_eq_true, QVariant.ne, Bool.not_eq_false'] at h
    exact ⟨h.1, rfl, Or.inr h.2⟩

theorem impl_bundle.get_ctor (qt : QtConversions) (s : QSettings) (n : String) (T : Ty)
    (k : String) :
    (impl_bundle.ctor s n).get qt T k = qcruft_to_t qt T (s.value n k) := by
  show qcruft_to_t qt T ((group.ctor s n).get_QVariant k) = _
  rw [group.ctor_get_QVariant]

/-! ## `save` persists what `transient` holds -/

theorem impl_bundle.store_wf (b : impl_bundle) (k : String) (d : QVariant) (h : b.wf) :
    (b.store k d).1.wf := by
  rcases impl_bundle.store_cases b k d with hs | hs <;> rw [hs]
  · exact h
  · exact ⟨h.1, h.2⟩

theorem rereadAll_wf (qt : QtConversions) (vs : List value) (b : impl_bundle) (h : b.wf) :
    (rereadAll qt vs b).1.wf := by
  induction vs generalizing b with
  | nil => exact h
  | cons x xs ih => exact ih _ (impl_bundle.store_wf b _ _ h)

theorem World.step_wf (qt : QtConversions) (w : World) (op : Op) (h : w.b.wf) :
    (w.step qt op).b.wf := by
  cases op with
  | store name datum => exact impl_bundle.store_wf w.b name datum h
  | save => exact ⟨h.2, h.2⟩
  | revert => exact ⟨h.1, h.1⟩
  | reload => exact rereadAll_wf qt w.values _ ⟨rfl, rfl⟩
  | construct x =>
    show (x.ctor qt w.b).1.wf
    unfold value.ctor
    split
    · exact impl_bundle.store_wf w.b _ _ h
    · exact h
  | assign i datum =>
    simp only [World.step]
    cases w.values.get? i with
    | none => exact h
    | some x => exact impl_bundle.store_wf w.b _ _ h
  | external iniFile => exact h

/-- Every bundle reached from construction is well-formed: both snapshots
carry its section name. -/
theorem World.run_wf (qt : QtConversions) (iniFile : QSettings) (name : String)
    (ops : List Op) : ((World.init iniFile name).run qt ops).b.wf := by
  have key : ∀ (ops : List Op) (w : World), w.b.wf → (w.run qt ops).b.wf := by
    intro ops
    induction ops with
    | nil => exact fun _ h => h
    | cons op rest ih => exact fun w h => ih (w.step qt op) (World.step_wf qt w op h)
  exact key ops _ ⟨rfl, rfl⟩

/-- C5, as amended: over an ini file that is a map from (section, key) to
value: after `store(k, v)` with `v` of type `T` and `save()`, a bundle freshly
constructed for the same section returns from `get<T>(k)` the datum `v`
itself, except when `v` is a double zero and the entry already held a double
zero (of either sign): then the gate leaves the entry and the zero that was
there is read.  In every case the datum read compares `==` to `v`, unless `v`
is a NaN, which compares unequal to everything. -/
theorem save_then_fresh_bundle_reads (qt : QtConversions) (b : impl_bundle) (hwf : b.wf)
    (iniFile : QSettings) (k : String) (T : Ty) (v : T.denote) :
    ((impl_bundle.ctor ((b.store k (qVariantFromValue T v)).1.save iniFile).2 b.group_name).get
          qt T k = v
        ∨ ((qVariantFromValue T v).isDoubleZero = true
            ∧ (qVariantFromValue T
                ((impl_bundle.ctor ((b.store k (qVariantFromValue T v)).1.save iniFile).2
                  b.group_name).get qt T k)).isDoubleZero = true))
      ∧ QVariant.eq
          (qVariantFromValue T
            ((impl_bundle.ctor ((b.store k (qVariantFromValue T v)).1.save iniFile).2
              b.group_name).get qt T k))
          (qVariantFromValue T v)
        = !(qVariantFromValue T v).isDoubleNaN := by
  have key : (impl_bundle.ctor ((b.store k (qVariantFromValue T v)).1.save iniFile).2
        b.group_name).get qt T k = v
      ∨ ((qVariantFromValue T v).isDoubleZero = true
          ∧ (qVariantFromValue T
              ((impl_bundle.ctor ((b.store k (qVariantFromValue T v)).1.save iniFile).2
                b.group_name).get qt T k)).isDoubleZero = true) := by
    obtain ⟨hc, hn, he⟩ := impl_bundle.store_entry b k (qVariantFromValue T v)
    rw [hwf.2] at hn
    have hread : (impl_bundle.ctor ((b.store k (qVariantFromValue T v)).1.save iniFile).2
        b.group_name).get qt T k
        = qcruft_to_t qt T ((b.store k (qVariantFromValue T v)).1.get_QVariant k) := by
      rw [impl_bundle.get_ctor]
      show qcruft_to_t qt T
        (((b.store k (qVariantFromValue T v)).1.transient.save iniFile).value
          b.group_name k) = _
      rw [group.save_value, if_pos ⟨hn.symm, hc⟩]
      rfl
    rw [hread]
    rcases he with he | he
    · rw [he]
      exact Or.inl (qcruft_to_t_qVariantFromValue qt T v)
    · rcases QVariant.eq_qVariantFromValue T v _ he with h | h
      · rw [h]
        exact Or.inl (qcruft_to_t_qVariantFromValue qt T v)
      · refine Or.inr ⟨h.1, ?_⟩
        revert h
        generalize (b.store k (qVariantFromValue T v)).1.get_QVariant k = e
        intro h
        cases T <;> cases e <;> simp_all [qVariantFromValue, QVariant.isDoubleZero,
          qcruft_to_t, QVariant.toDouble]
  exact ⟨key, qVariantFromValue_eq_of_read T v _ key⟩

/-- C5 at a concrete input: `5` stored under "a" in a bundle of the empty
section "s", saved, and read by a fresh bundle. -/
theorem save_then_fresh_bundle_reads_witness :
    (impl_bundle.ctor [] "s").wf
      ∧ (impl_bundle.ctor (((impl_bundle.ctor [] "s").store "a" (QVariant.int 5)).1.save []).2
          "s").get QtConversions.sample Ty.int "a" = (5 : Int) :=
  ⟨⟨rfl, rfl⟩,
   (save_then_fresh_bundle_reads QtConversions.sample (impl_bundle.ctor [] "s") ⟨rfl, rfl⟩ []
      "a" Ty.int (5 : Int)).1.resolve_right (by decide)⟩

/-- C5 fails as stated, whichever way its `==` is read.  With `-0.0` stored
under "k", `store("k", 0.0)` is gated out as equal, and after `save()` the
fresh bundle reads `-0.0`, which is not the datum `0.0` that was stored.
With a NaN stored and saved, the fresh bundle reads that NaN, and the C++
comparison of the datum read with the NaN stored is false. -/
theorem fresh_bundle_read_not_the_stored_datum :
    (impl_bundle.ctor
        ((((impl_bundle.ctor [] "s").store "k" (QVariant.double QDouble.negZero)).1.store "k"
          (QVariant.double QDouble.zero)).1.save []).2 "s").get
      QtConversions.sample Ty.double "k" = QDouble.negZero
    ∧ QDouble.negZero ≠ QDouble.zero
    ∧ QDouble.eq
        ((impl_bundle.ctor
          (((impl_bundle.ctor [] "s").store "k" (QVariant.double QDouble.qNaN)).1.save []).2
            "s").get QtConversions.sample Ty.double "k")
        QDouble.qNaN = false := by
  decide

/-! ## `reload` -/

theorem impl_bundle.store_get_of_ne (qt : QtConversions) (b : impl_bundle) (n k : String)
    (d : QVariant) (T : Ty) (h : n ≠ k) :
    (b.store n d).1.get qt T k = b.get qt T k := by
  rcases impl_bundle.store_cases b n d with hs | hs <;> rw [hs]
  have hk : ¬ k = n := fun e => h e.symm
  simp [impl_bundle.get, group.get, group.put, QMap.value_insert, hk]

theorem value.assign_get (qt : QtConversions) (x : value) (b : impl_bundle) (d : QVariant) :
    (x.assign qt b d).1.get qt x.T x.self_name = qcruft_to_t qt x.T d
      ∨ (x.assign qt b d).1 = b := by
  rcases impl_bundle.store_cases b x.self_name
    (qVariantFromValue x.T (qcruft_to_t qt x.T d)) with hs | hs
  · exact Or.inr hs
  · left
    show (b.store x.self_name (qVariantFromValue x.T (qcruft_to_t qt x.T d))).1.get qt x.T
      x.self_name = _
    rw [hs]
    simp [impl_bundle.get, group.get, group.put, QMap.value_insert,
      qcruft_to_t_qVariantFromValue]

theorem value.reread_value_get (qt : QtConversions) (x : value) (b : impl_bundle) (k : String)
    (T : Ty) (hx : x.self_name = k → x.T = T) :
    (x.reread_value qt b).1.get qt T k = b.get qt T k := by
  by_cases hk : x.self_name = k
  · have hT := hx hk
    subst hT
    subst hk
    rcases value.assign_get qt x b (b.get_QVariant x.self_name) with h | h
    · exact h
    · unfold value.reread_value
      rw [h]
  · exact impl_bundle.store_get_of_ne qt b x.self_name k _ T hk

theorem rereadAll_get (qt : QtConversions) (vs : List value) (b : impl_bundle) (k : String)
    (T : Ty) (hT : ∀ x ∈ vs, x.self_name = k → x.T = T) :
    (rereadAll qt vs b).1.get qt T k = b.get qt T k := by
  induction vs generalizing b with
  | nil => rfl
  | cons x xs ih =>
    show (rereadAll qt xs (x.reread_value qt b).1).1.get qt T k = _
    rw [ih _ (fun y hy => hT y (List.mem_cons_of_mem x hy))]
    exact value.reread_value_get qt x b k T (hT x (List.mem_cons_self x xs))

theorem rereadAll_saved (qt : QtConversions) (vs : List value) (b : impl_bundle) :
    (rereadAll qt vs b).1.saved = b.saved := by
  induction vs generalizing b with
  | nil => rfl
  | cons x xs ih =>
    show (rereadAll qt xs (x.reread_value qt b).1).1.saved = _
    rw [ih]
    exact impl_bundle.store_saved b _ _

theorem impl_bundle.reload_get (qt : QtConversions) (b : impl_bundle) (iniFile : QSettings)
    (T : Ty) (k : String) :
    (b.reload iniFile).1.get qt T k
      = (if iniFile.contains b.group_name k = true
          then qcruft_to_t qt T (iniFile.value b.group_name k) else T.zero) := by
  have hget : (b.reload iniFile).1.get qt T k
      = qcruft_to_t qt T (iniFile.value b.group_name k) := by
    show qcruft_to_t qt T ((group.ctor iniFile b.group_name).get_QVariant k) = _
    rw [group.ctor_get_QVariant]
  rw [hget]
  by_cases hc : iniFile.contains b.group_name k = true
  · rw [if_pos hc]
  · rw [if_neg hc]
    simp only [Bool.not_eq_true] at hc
    have : iniFile.value b.group_name k = QVariant.invalid :=
      QMap.value_of_not_contains iniFile (b.group_name, k) hc
    rw [this, qcruft_to_t_invalid]

theorem impl_bundle.reload_saved (b : impl_bundle) (iniFile : QSettings) (j : String) :
    (b.reload iniFile).1.saved.contains j = iniFile.contains b.group_name j
      ∧ (b.reload iniFile).1.saved.get_QVariant j = iniFile.value b.group_name j := by
  show (group.ctor iniFile b.group_name).contains j = _
    ∧ (group.ctor iniFile b.group_name).get_QVariant j = _
  rw [group.ctor_contains, group.ctor_get_QVariant]
  exact ⟨rfl, rfl⟩

/-- C6, as amended: on a bundle where every value attached to `k` (if any)
is a `value<T>`: after `store(k, v)` without a `save()`, `reload()`, with the
`reread_value` slots it runs, makes `get<T>(k)` the ini file's entry of `k`
in the bundle's section coerced to `T`, which is `T()` when the section has
no `k`, whatever `v` was; and `saved` holds the section's contents. -/
theorem reload_discards_unsaved (qt : QtConversions) (w : World) (k : String) (v : QVariant)
    (T : Ty) (hT : ∀ x ∈ w.values, x.self_name = k → x.T = T) :
    ((w.step qt (Op.store k v)).step qt Op.reload).b.get qt T k
        = qcruft_to_t qt T (w.iniFile.value w.b.group_name k)
      ∧ ((w.step qt (Op.store k v)).step qt Op.reload).b.get qt T k
        = (if w.iniFile.contains w.b.group_name k = true
            then qcruft_to_t qt T (w.iniFile.value w.b.group_name k) else T.zero)
      ∧ ∀ j, ((w.step qt (Op.store k v)).step qt Op.reload).b.saved.contains j
                = w.iniFile.contains w.b.group_name j
            ∧ ((w.step qt (Op.store k v)).step qt Op.reload).b.saved.get_QVariant j
                = w.iniFile.value w.b.group_name j := by
  have hget : ((w.step qt (Op.store k v)).step qt Op.reload).b.get qt T k
      = (if w.iniFile.contains w.b.group_name k = true
          then qcruft_to_t qt T (w.iniFile.value w.b.group_name k) else T.zero) := by
    show (rereadAll qt w.values ((w.b.store k v).1.reload w.iniFile).1).1.get qt T k = _
    rw [rereadAll_get qt w.values _ k T hT, impl_bundle.reload_get,
      impl_bundle.store_group_name]
  have hplain : ((w.step qt (Op.store k v)).step qt Op.reload).b.get qt T k
      = qcruft_to_t qt T (w.iniFile.value w.b.group_name k) := by
    show (rereadAll qt w.values ((w.b.store k v).1.reload w.iniFile).1).1.get qt T k = _
    rw [rereadAll_get qt w.values _ k T hT]
    show qcruft_to_t qt T
      ((group.ctor w.iniFile (w.b.store k v).1.group_name).get_QVariant k) = _
    rw [group.ctor_get_QVariant, impl_bundle.store_group_name]
  refine ⟨hplain, hget, fun j => ?_⟩
  show (rereadAll qt w.values ((w.b.store k v).1.reload w.iniFile).1).1.saved.contains j = _
    ∧ (rereadAll qt w.values ((w.b.store k v).1.reload w.iniFile).1).1.saved.get_QVariant j
      = _
  rw [rereadAll_saved]
  have h := impl_bundle.reload_saved (w.b.store k v).1 w.iniFile j
  rw [impl_bundle.store_group_name] at h
  exact h

/-- C6 at a concrete input: section "s" holds `k = 1`, a `value<int>` is
attached to "k", `9` is stored and the bundle reloaded. -/
theorem reload_discards_unsaved_witness :
    (((World.init [(("s", "k"), QVariant.int 1)] "s").step QtConversions.sample
        (Op.construct ⟨"k", Ty.int, (7 : Int)⟩)).step QtConversions.sample
          (Op.store "k" (QVariant.int 9))).b.get QtConversions.sample Ty.int "k" = (9 : Int)
      ∧ ((((World.init [(("s", "k"), QVariant.int 1)] "s").step QtConversions.sample
          (Op.construct ⟨"k", Ty.int, (7 : Int)⟩)).step QtConversions.sample
            (Op.store "k" (QVariant.int 9))).step QtConversions.sample
              Op.reload).b.get QtConversions.sample Ty.int "k" = (1 : Int) :=
  ⟨by decide,
   ((reload_discards_unsaved QtConversions.sample
      ((World.init [(("s", "k"), QVariant.int 1)] "s").step QtConversions.sample
        (Op.construct ⟨"k", Ty.int, (7 : Int)⟩))
      "k" (QVariant.int 9) Ty.int (by decide)).1).trans (by decide)⟩

/-- C6 fails as stated: section "s" was saved with `k = 5`; on a bundle of
that section with a `value<bool>` attached to "k", `store("k", 9)` and then
`reload()` leave `get<int>("k")` at `1`, not at the persisted `5`: the
`reread_value` slot run by `reload()` has stored `true` over the `5`. -/
theorem reload_reread_by_value_of_other_type :
    (((impl_bundle.ctor [] "s").store "k" (QVariant.int 5)).1.save []).2
        = [(("s", "k"), QVariant.int 5)]
    ∧ ((World.init [(("s", "k"), QVariant.int 5)] "s").run QtConversions.sample
        [Op.construct (value.mk "k" Ty.bool false), Op.store "k" (QVariant.int 9),
         Op.reload]).b.get QtConversions.sample Ty.int "k" = (1 : Int)
    ∧ qcruft_to_t QtConversions.sample Ty.int
        (QSettings.value [(("s", "k"), QVariant.int 5)] "s" "k") = (5 : Int) := by
  decide

/-! ## `value<T>`: assignment and construction -/

theorem impl_bundle.store_count_bundleChanged (b : impl_bundle) (k : String) (d : QVariant) :
    (b.store k d).2.count Event.bundleChanged
      = (if (!b.transient.contains k || QVariant.ne d (b.transient.get_QVariant k)) = true
          then 1 else 0) := by
  unfold impl_bundle.store
  split
  · cases b.modified <;> simp [List.count_cons]
  · rfl

theorem impl_bundle.store_filter_isValueChanged (b : impl_bundle) (k : String) (d : QVariant) :
    (b.store k d).2.filter Event.isValueChanged = [] := by
  unfold impl_bundle.store
  split
  · cases b.modified <;> simp [List.filter, Event.isValueChanged]
  · rfl

theorem impl_bundle.store_eq (b : impl_bundle) (k : String) (d : QVariant) :
    (b.store k d).1
      = (if (!b.transient.contains k || QVariant.ne d (b.transient.get_QVariant k)) = true
          then { b with modified := true, transient := b.transient.put k d } else b) := by
  unfold impl_bundle.store
  split <;> rfl

/-- C7, as amended: every assignment to a `value<T>` raises exactly one
`valueChanged`, carrying the datum coerced to `T`, whether or not
`impl_bundle::store` changed the `transient` entry; what the equality gate
decides is the write with the `modified` flag and `bundleChanged`, raised once
when the key was absent or its entry differed and not at all otherwise. -/
theorem assign_always_raises_valueChanged (qt : QtConversions) (x : value) (b : impl_bundle)
    (datum : QVariant) :
    (x.assign qt b datum).2.filter Event.isValueChanged
        = [Event.valueChanged x.self_name (qVariantFromValue x.T (qcruft_to_t qt x.T datum))]
      ∧ (x.assign qt b datum).2.count Event.bundleChanged
        = (if (!b.transient.contains x.self_name
                || QVariant.ne (qVariantFromValue x.T (qcruft_to_t qt x.T datum))
                    (b.transient.get_QVariant x.self_name)) = true then 1 else 0)
      ∧ (x.assign qt b datum).1
        = (if (!b.transient.contains x.self_name
                || QVariant.ne (qVariantFromValue x.T (qcruft_to_t qt x.T datum))
                    (b.transient.get_QVariant x.self_name)) = true
            then { b with
                   modified := true
                   transient := b.transient.put x.self_name
                     (qVariantFromValue x.T (qcruft_to_t qt x.T datum)) }
            else b) := by
  refine ⟨?_, ?_, impl_bundle.store_eq b _ _⟩
  · unfold value.assign
    simp only [List.filter_append, impl_bundle.store_filter_isValueChanged, List.nil_append]
    rfl
  · unfold value.assign
    simp only [List.count_append, impl_bundle.store_count_bundleChanged]
    simp [List.count_cons]

/-- C7 fails as stated: a `value<int>` with default `5` is constructed on "k"
in an empty bundle, which stores `5`.  Assigning `5` again leaves the bundle
as it was and still raises `valueChanged(5)`; and after `save()`, a
`reload()` that does not change the key makes `reread_value` raise
`valueChanged(5)` once more, the bundle again left as it was. -/
theorem assign_equal_still_raises_valueChanged :
    (value.mk "k" Ty.int (5 : Int)).assign QtConversions.sample
        ((World.init [] "s").run QtConversions.sample
          [Op.construct (value.mk "k" Ty.int (5 : Int))]).b (QVariant.int 5)
      = (((World.init [] "s").run QtConversions.sample
          [Op.construct (value.mk "k" Ty.int (5 : Int))]).b,
         [Event.valueChanged "k" (QVariant.int 5)])
    ∧ ((World.init [] "s").run QtConversions.sample
        [Op.construct (value.mk "k" Ty.int (5 : Int)), Op.save, Op.reload]).b
      = ((World.init [] "s").run QtConversions.sample
        [Op.construct (value.mk "k" Ty.int (5 : Int)), Op.save]).b
    ∧ ((World.init [] "s").run QtConversions.sample
        [Op.construct (value.mk "k" Ty.int (5 : Int)), Op.save, Op.reload]).log
      = ((World.init [] "s").run QtConversions.sample
        [Op.construct (value.mk "k" Ty.int (5 : Int)), Op.save]).log
          ++ [Event.reloaded, Event.valueChanged "k" (QVariant.int 5)] := by
  decide

theorem QVariant.ne_qVariantFromValue_of_invalid (T : Ty) (x : T.denote) (e : QVariant)
    (h : (e.type == QVariantType.Invalid) = true) :
    QVariant.ne (qVariantFromValue T x) e = true := by
  cases e <;> simp [QVariant.type] at h
  cases T <;> rfl

theorem value.ctor_seeds (qt : QtConversions) (x : value) (b : impl_bundle)
    (h : (!b.contains x.self_name
            || (b.get_QVariant x.self_name).type == QVariantType.Invalid) = true) :
    x.ctor qt b
      = ({ b with
           modified := true
           transient := b.transient.put x.self_name (qVariantFromValue x.T x.def_) },
         (if !b.modified then
            [Event.qDebug x.self_name (b.transient.get_QVariant x.self_name)
              (qVariantFromValue x.T x.def_)] else [])
           ++ [Event.bundleChanged]
           ++ [Event.valueChanged x.self_name (qVariantFromValue x.T x.def_)]) := by
  have hg : (!b.transient.contains x.self_name
      || QVariant.ne (qVariantFromValue x.T x.def_)
          (b.transient.get_QVariant x.self_name)) = true := by
    rcases Bool.or_eq_true _ _ ▸ h with h1 | h1
    · have h1 : (!b.transient.contains x.self_name) = true := h1
      rw [h1]; rfl
    · have h2 := QVariant.ne_qVariantFromValue_of_invalid x.T x.def_
        (b.transient.get_QVariant x.self_name) h1
      rw [h2]
      exact Bool.or_true _
  unfold value.ctor
  rw [if_pos h]
  unfold value.assign
  rw [qcruft_to_t_qVariantFromValue]
  unfold impl_bundle.store
  rw [if_pos hg]

/-- C8: constructing `value<T>(b, k, d)` on a bundle whose `transient` map is
empty leaves `b.get<T>(k)` returning `d`, and raises `bundleChanged` exactly
once during the construction. -/
theorem value_ctor_seeds_default (qt : QtConversions) (x : value) (b : impl_bundle)
    (h : b.transient.map = []) :
    (x.ctor qt b).1.get qt x.T x.self_name = x.def_
      ∧ (x.ctor qt b).2.count Event.bundleChanged = 1 := by
  have hc : (!b.contains x.self_name
      || (b.get_QVariant x.self_name).type == QVariantType.Invalid) = true := by
    simp [impl_bundle.contains, group.contains, h, QMap.contains]
  rw [value.ctor_seeds qt x b hc]
  constructor
  · simp [impl_bundle.get, group.get, group.put, QMap.value_insert,
      qcruft_to_t_qVariantFromValue]
  · cases b.modified <;> simp [List.count_cons]

/-- C8 at a concrete input: a `value<bool>` with default `true` on the bundle
of an empty section. -/
theorem value_ctor_seeds_default_witness :
    (impl_bundle.ctor [] "s").transient.map = []
      ∧ ((value.mk "k" Ty.bool true).ctor QtConversions.sample (impl_bundle.ctor [] "s")).1.get
          QtConversions.sample Ty.bool "k" = true :=
  ⟨rfl, (value_ctor_seeds_default QtConversions.sample (value.mk "k" Ty.bool true)
    (impl_bundle.ctor [] "s") rfl).1⟩

/-- C9, as amended: right after constructing `value<T>(b, k, d)`, `transient`
contains `k`.  When `k` was absent or held an invalid variant, its entry is
`d` with type tag `T`; otherwise the entry is left as it was, with whatever
tag it had, and it is the read `get<T>(k)` that coerces it to `T`. -/
theorem value_ctor_entry (qt : QtConversions) (x : value) (b : impl_bundle) :
    (x.ctor qt b).1.transient.contains x.self_name = true
      ∧ (x.ctor qt b).1.get_QVariant x.self_name
        = (if (!b.contains x.self_name
                || (b.get_QVariant x.self_name).type == QVariantType.Invalid) = true
            then qVariantFromValue x.T x.def_ else b.get_QVariant x.self_name)
      ∧ ((x.ctor qt b).1.get_QVariant x.self_name).type
        = (if (!b.contains x.self_name
                || (b.get_QVariant x.self_name).type == QVariantType.Invalid) = true
            then x.T.tag else (b.get_QVariant x.self_name).type)
      ∧ (x.ctor qt b).1.get qt x.T x.self_name
        = (if (!b.contains x.self_name
                || (b.get_QVariant x.self_name).type == QVariantType.Invalid) = true
            then x.def_ else qcruft_to_t qt x.T (b.get_QVariant x.self_name)) := by
  by_cases hc : (!b.contains x.self_name
      || (b.get_QVariant x.self_name).type == QVariantType.Invalid) = true
  · rw [value.ctor_seeds qt x b hc]
    simp only [hc, if_true]
    refine ⟨?_, ?_, ?_, ?_⟩
    · simp [group.put, group.contains, QMap.contains_insert]
    · simp [impl_bundle.get_QVariant, group.get_QVariant, group.put, qcruft_to_t_QVariant,
        QMap.value_insert]
    · simp [impl_bundle.get_QVariant, group.get_QVariant, group.put, qcruft_to_t_QVariant,
        QMap.value_insert, qVariantFromValue_type]
    · simp [impl_bundle.get, group.get, group.put, QMap.value_insert,
        qcruft_to_t_qVariantFromValue]
  · have hctor : x.ctor qt b = (b, []) := by
      unfold value.ctor
      rw [if_neg hc]
    rw [hctor]
    simp only [hc, if_false]
    refine ⟨?_, rfl, rfl, rfl⟩
    simp only [Bool.or_eq_true, Bool.not_eq_true', not_or, Bool.not_eq_false] at hc
    exact hc.1

/-- C9 fails as stated: with the text "abc" stored under "k", constructing
`value<int>(b, "k", 5)` stores nothing and the entry keeps the tag `String`. -/
theorem value_ctor_keeps_foreign_tag :
    ((value.mk "k" Ty.int (5 : Int)).ctor QtConversions.sample
        (impl_bundle.ctor [(("s", "k"), QVariant.string "abc")] "s")).1.get_QVariant "k"
      = QVariant.string "abc"
    ∧ (((value.mk "k" Ty.int (5 : Int)).ctor QtConversions.sample
        (impl_bundle.ctor [(("s", "k"), QVariant.string "abc")] "s")).1.get_QVariant "k").type
      ≠ Ty.int.tag := by
  decide

/-! ## `group::get`: missing keys and entries of another type -/

theorem group.get_of_not_contains (qt : QtConversions) (g : group) (T : Ty) (k : String)
    (h : g.contains k = false) : g.get qt T k = T.zero := by
  unfold group.get
  rw [QMap.value_of_not_contains g.map k h, qcruft_to_t_invalid]

/-- C11, as amended: an entry that is the invalid placeholder reads, through
`group::get<T>`, as `T()`, the same as a missing key.  An entry with a valid
tag other than `T` is converted by `toInt`, `toBool`, `toString`: a boolean
reads as the int `1` or `0` and as the text "true" or "false", an int reads
as the boolean "non-zero". -/
theorem get_of_invalid_entry (qt : QtConversions) (g : group) (T : Ty) (k j : String)
    (hk : (g.get_QVariant k).type = QVariantType.Invalid) (hj : g.contains j = false) :
    g.get qt T k = T.zero
      ∧ g.get qt T k = g.get qt T j
      ∧ (∀ (i : String) (x : Bool), g.get_QVariant i = QVariant.bool x →
          g.get qt Ty.int i = (if x then 1 else 0)
            ∧ g.get qt Ty.QString i = (if x then "true" else "false"))
      ∧ (∀ (i : String) (n : Int), g.get_QVariant i = QVariant.int n →
          g.get qt Ty.bool i = (n != 0)) := by
  have hinv : QMap.value g.map k = QVariant.invalid := by
    have h2 : (QMap.value g.map k).type = QVariantType.Invalid := hk
    revert h2
    cases QMap.value g.map k <;> simp [QVariant.type]
  have hz : g.get qt T k = T.zero := by
    unfold group.get
    rw [hinv, qcruft_to_t_invalid]
  refine ⟨hz, ?_, ?_, ?_⟩
  · rw [hz, group.get_of_not_contains qt g T j hj]
  · intro i x hx
    have hx2 : QMap.value g.map i = QVariant.bool x := hx
    unfold group.get
    rw [hx2]
    exact ⟨rfl, rfl⟩
  · intro i n hn
    have hn2 : QMap.value g.map i = QVariant.int n := hn
    unfold group.get
    rw [hn2]
    rfl

/-- C11 at a concrete input: an invalid placeholder put under "k" reads as
the int `0`, like the missing key "j". -/
theorem get_of_invalid_entry_witness :
    (((group.ctor [] "s").put "k" QVariant.invalid).get_QVariant "k").type
        = QVariantType.Invalid
      ∧ ((group.ctor [] "s").put "k" QVariant.invalid).get QtConversions.sample Ty.int "k"
        = (0 : Int) :=
  ⟨by decide,
   (get_of_invalid_entry QtConversions.sample ((group.ctor [] "s").put "k" QVariant.invalid)
      Ty.int "k" "j" (by decide) (by decide)).1⟩

/-- C11 fails as stated: the boolean `true` put under "k" has a tag other
than `Int`, and `get<int>("k")` returns `1`, while the missing key "j" reads
as `0`. -/
theorem get_int_of_bool_entry :
    (((group.ctor [] "s").put "k" (QVariant.bool true)).get_QVariant "k").type ≠ Ty.int.tag
      ∧ ((group.ctor [] "s").put "k" (QVariant.bool true)).get QtConversions.sample Ty.int "k"
        = (1 : Int)
      ∧ ((group.ctor [] "s").put "k" (QVariant.bool true)).contains "j" = false
      ∧ ((group.ctor [] "s").put "k" (QVariant.bool true)).get QtConversions.sample Ty.int "j"
        = (0 : Int) := by
  decide

/-- C12: for a key the map does not contain, `get<int>` is `0`,
`get<double>` is `0.0`, `get<bool>` is `false`, `get<QString>` is the empty
text and `get<QVariant>` is the invalid variant, on a group and on a bundle
(which reads its `transient` group).  `get` is a total function of the map
(it reads with `map.value(k)`), so it cannot fail and hands back no changed
map: `contains(k)` stays false. -/
theorem get_of_missing_key (qt : QtConversions) (g : group) (b : impl_bundle) (k : String)
    (hg : g.contains k = false) (hb : b.contains k = false) :
    (g.get qt Ty.int k = (0 : Int)
      ∧ g.get qt Ty.double k = QDouble.zero
      ∧ g.get qt Ty.bool k = false
      ∧ g.get qt Ty.QString k = ""
      ∧ g.get_QVariant k = QVariant.invalid)
    ∧ (b.get qt Ty.int k = (0 : Int)
      ∧ b.get qt Ty.double k = QDouble.zero
      ∧ b.get qt Ty.bool k = false
      ∧ b.get qt Ty.QString k = ""
      ∧ b.get_QVariant k = QVariant.invalid) := by
  have hb2 : b.transient.contains k = false := hb
  refine ⟨⟨group.get_of_not_contains qt g Ty.int k hg,
      group.get_of_not_contains qt g Ty.double k hg,
      group.get_of_not_contains qt g Ty.bool k hg,
      group.get_of_not_contains qt g Ty.QString k hg,
      QMap.value_of_not_contains g.map k hg⟩,
    ⟨group.get_of_not_contains qt b.transient Ty.int k hb2,
      group.get_of_not_contains qt b.transient Ty.double k hb2,
      group.get_of_not_contains qt b.transient Ty.bool k hb2,
      group.get_of_not_contains qt b.transient Ty.QString k hb2,
      QMap.value_of_not_contains b.transient.map k hb2⟩⟩

/-- C12 at a concrete input: key "j" of a bundle that holds only "k". -/
theorem get_of_missing_key_witness :
    ((impl_bundle.ctor [] "s").store "k" (QVariant.int 5)).1.contains "j" = false
      ∧ ((impl_bundle.ctor [] "s").store "k" (QVariant.int 5)).1.get_QVariant "j"
        = QVariant.invalid :=
  ⟨by decide,
   (get_of_missing_key QtConversions.sample
      ((impl_bundle.ctor [] "s").store "k" (QVariant.int 5)).1.transient
      ((impl_bundle.ctor [] "s").store "k" (QVariant.int 5)).1 "j"
      (by decide) (by decide)).2.2.2.2.2⟩

/-! ## `store` twice -/

theorem QMap.insert_insert {κ : Type} [DecidableEq κ] (m : QMap κ) (k : κ) (v : QVariant) :
    QMap.insert (QMap.insert m k v) k v = QMap.insert m k v := by
  induction m with
  | nil => simp [QMap.insert]
  | cons hd tl ih =>
    obtain ⟨a, x⟩ := hd
    by_cases h : k = a
    · simp [QMap.insert, h]
    · simp [QMap.insert, h, ih]

theorem QVariant.not_isDoubleNaN_of_eq (v e : QVariant) (h : QVariant.eq v e = true) :
    v.isDoubleNaN = false := by
  cases v <;> cases e <;> simp [QVariant.eq, QVariant.isDoubleNaN] at h ⊢
  unfold QDouble.eq at h
  simp only [Bool.and_eq_true, Bool.not_eq_true'] at h
  exact h.1.1

/-- C13, as amended: after `store(k, v); store(k, v)` the bundle is in the
state the first call left it in, for every `v`.  The second call raises no
notification when `v` equals itself under `QVariant` `==`, which is every
`v` but a double NaN; for a NaN the second call raises `bundleChanged`
again. -/
theorem store_twice (b : impl_bundle) (k : String) (v : QVariant) :
    ((b.store k v).1.store k v).1 = (b.store k v).1
      ∧ ((b.store k v).1.store k v).2
        = (if v.isDoubleNaN = true then [Event.bundleChanged] else [])
      ∧ (b.store k v).2.count Event.bundleChanged
          + ((b.store k v).1.store k v).2.count Event.bundleChanged
        ≤ (if v.isDoubleNaN = true then 2 else 1) := by
  by_cases hg : (!b.transient.contains k || QVariant.ne v (b.transient.get_QVariant k)) = true
  · have h1 : b.store k v
        = ({ b with modified := true, transient := b.transient.put k v },
           (if !b.modified then [Event.qDebug k (b.transient.get_QVariant k) v] else [])
             ++ [Event.bundleChanged]) := by
      unfold impl_bundle.store
      rw [if_pos hg]
    have hc : (b.transient.put k v).contains k = true := by
      simp [group.put, group.contains, QMap.contains_insert]
    have hv : (b.transient.put k v).get_QVariant k = v := by
      simp [group.get_QVariant, group.put, qcruft_to_t_QVariant, QMap.value_insert]
    have hput : (b.transient.put k v).put k v = b.transient.put k v := by
      simp [group.put, QMap.insert_insert]
    have hcount : ((if !b.modified then [Event.qDebug k (b.transient.get_QVariant k) v]
        else []) ++ [Event.bundleChanged]).count Event.bundleChanged = 1 := by
      cases b.modified <;> simp [List.count_cons]
    rw [h1]
    simp only [hcount]
    by_cases hn : v.isDoubleNaN = true
    · have hg2 : (!(b.transient.put k v).contains k
          || QVariant.ne v ((b.transient.put k v).get_QVariant k)) = true := by
        rw [hc, hv]
        simp [QVariant.ne, QVariant.eq_self, hn]
      unfold impl_bundle.store
      simp only [hg2, if_true, hput, hn]
      simp [List.count_cons]
    · have hg2 : ¬ (!(b.transient.put k v).contains k
          || QVariant.ne v ((b.transient.put k v).get_QVariant k)) = true := by
        rw [hc, hv]
        simp only [Bool.not_eq_true] at hn
        simp [QVariant.ne, QVariant.eq_self, hn]
      unfold impl_bundle.store
      simp only [hg2, if_false, hn]
      simp
  · have h1 : b.store k v = (b, []) := by
      unfold impl_bundle.store
      rw [if_neg hg]
    have hn : v.isDoubleNaN = false := by
      simp only [Bool.or_eq_true, Bool.not_eq_true', not_or, Bool.not_eq_false,
        Bool.not_eq_true, QVariant.ne, Bool.not_eq_false'] at hg
      exact QVariant.not_isDoubleNaN_of_eq v _ hg.2
    rw [h1, h1]
    simp [hn]

/-- C13 fails as stated: a double NaN stored twice under "k" of an empty
bundle raises `bundleChanged` on the first call and again on the second. -/
theorem store_nan_twice_raises_twice :
    ((impl_bundle.ctor [] "s").store "k" (QVariant.double QDouble.qNaN)).2.count
        Event.bundleChanged = 1
      ∧ (((impl_bundle.ctor [] "s").store "k" (QVariant.double QDouble.qNaN)).1.store "k"
          (QVariant.double QDouble.qNaN)).2 = [Event.bundleChanged] := by
  decide

/-! ## Bindings: the event queue -/

theorem Gui.processEvents_of_empty (qt : QtConversions) (n : Nat) (g : Gui)
    (h : g.queue = []) : Gui.processEvents qt n g = g := by
  cases n with
  | zero => rfl
  | succ n => simp [Gui.processEvents, h]

theorem Gui.processEvents_add (qt : QtConversions) (n m : Nat) (g : Gui) :
    Gui.processEvents qt (n + m) g = Gui.processEvents qt m (Gui.processEvents qt n g) := by
  induction n generalizing g with
  | zero => simp [Gui.processEvents]
  | succ n ih =>
    rw [Nat.succ_add]
    by_cases h : g.queue = []
    · rw [Gui.processEvents_of_empty qt _ g h, Gui.processEvents_of_empty qt _ g h,
        Gui.processEvents_of_empty qt _ g h]
    · have h2 : g.queue.isEmpty = false := by
        cases hq : g.queue with
        | nil => exact absurd hq h
        | cons a r => rfl
      simp only [Gui.processEvents, h2, Bool.false_eq_true, if_false]
      exact ih _

set_option maxHeartbeats 4000000 in
theorem Gui.twoControls_run (qt : QtConversions) :
    (Gui.processEvents qt 8 ((Gui.twoControls qt).assign qt (QVariant.int 5))).queue = []
      ∧ (Gui.processEvents qt 8 ((Gui.twoControls qt).assign qt (QVariant.int 5))).controls
        = [{ shown := QVariant.int 5 }, { shown := QVariant.int 5 }]
      ∧ (Gui.processEvents qt 8 ((Gui.twoControls qt).assign qt (QVariant.int 5))).log
        = (Gui.twoControls qt).log ++ [Event.bundleChanged,
            Event.valueChanged "k" (QVariant.int 5), Event.valueChanged "k" (QVariant.int 5),
            Event.valueChanged "k" (QVariant.int 5)]
      ∧ (Gui.processEvents qt 8 ((Gui.twoControls qt).assign qt (QVariant.int 5))).changed
        = [(0, QVariant.int 5), (1, QVariant.int 5)]
      ∧ (Gui.processEvents qt 7 ((Gui.twoControls qt).assign qt (QVariant.int 5))).queue
        = [Posted.controlSet 1 (QVariant.int 5)] := by
  simp [Gui.processEvents, Gui.dispatch, Gui.assign, Gui.controlSet, Gui.twoControls,
    Gui.tie_setting, Gui.init, value.ctor, value.assign, value.read, impl_bundle.store,
    impl_bundle.ctor, impl_bundle.contains, impl_bundle.get, impl_bundle.get_QVariant,
    group.ctor, group.get, group.get_QVariant, group.put, group.contains,
    QSettings.childKeys, QSettings.value, QMap.keys, qcruft_to_t, qcruft_to_t_QVariant,
    qVariantFromValue, QVariant.toInt, QVariant.ne, QVariant.eq, QVariant.type, Control.set,
    QMap.insert, QMap.contains, QMap.value, List.range, List.range.loop]

set_option maxHeartbeats 4000000 in
theorem Gui.oneToggle_run (qt : QtConversions) :
    (Gui.processEvents qt 2 ((Gui.oneToggle qt).controlSet 0 (QVariant.bool true))).queue = []
      ∧ (Gui.processEvents qt 2 ((Gui.oneToggle qt).controlSet 0 (QVariant.bool true))).controls
        = [{ shown := QVariant.bool true }]
      ∧ (Gui.processEvents qt 2 ((Gui.oneToggle qt).controlSet 0 (QVariant.bool true))).log
        = (Gui.oneToggle qt).log
            ++ [Event.bundleChanged, Event.valueChanged "k" (QVariant.bool true)]
      ∧ (Gui.processEvents qt 2 ((Gui.oneToggle qt).controlSet 0 (QVariant.bool true))).changed
        = [(0, QVariant.bool true)]
      ∧ (Gui.processEvents qt 2
          ((Gui.oneToggle qt).controlSet 0 (QVariant.bool true))).b.get_QVariant "k"
        = QVariant.bool true
      ∧ (Gui.processEvents qt 1 ((Gui.oneToggle qt).controlSet 0 (QVariant.bool true))).queue
        = [Posted.controlSet 0 (QVariant.bool true)]
      ∧ ((Gui.oneToggle qt).controlSet 0 (QVariant.bool true)).queue
        = [Posted.setValue (QVariant.bool true)]
      ∧ (Gui.oneToggle qt).changed = [] := by
  simp [Gui.processEvents, Gui.dispatch, Gui.assign, Gui.controlSet, Gui.oneToggle,
    Gui.tie_setting, Gui.init, value.ctor, value.assign, value.read, impl_bundle.store,
    impl_bundle.ctor, impl_bundle.contains, impl_bundle.get, impl_bundle.get_QVariant,
    group.ctor, group.get, group.get_QVariant, group.put, group.contains,
    QSettings.childKeys, QSettings.value, QMap.keys, qcruft_to_t, qcruft_to_t_QVariant,
    qVariantFromValue, QVariant.toBool, QVariant.ne, QVariant.eq, QVariant.type, Control.set,
    QMap.insert, QMap.contains, QMap.value, List.range, List.range.loop]

theorem Gui.processEvents_settled (qt : QtConversions) (n m : Nat) (g : Gui)
    (h : (Gui.processEvents qt n g).queue = []) :
    Gui.processEvents qt (n + m) g = Gui.processEvents qt n g := by
  rw [Gui.processEvents_add, Gui.processEvents_of_empty qt m _ h]

/-- C14, as amended: one `value<int>` with default `0`, tied to two numeric
controls over queued connections, is assigned `5`.  The event loop empties
the queue after eight deliveries, whatever more it is allowed; both controls
then show `5` and each raised its own change event once; and the value has
raised `valueChanged` three times: once for the assignment and once more for
the `setValue(5)` each control echoes back, which `store` gates out
(`bundleChanged` is raised once) but which still raises `valueChanged`. -/
theorem two_controls_three_valueChanged (qt : QtConversions) (m : Nat) :
    (Gui.processEvents qt (8 + m) ((Gui.twoControls qt).assign qt (QVariant.int 5))).queue = []
      ∧ (Gui.processEvents qt (8 + m)
          ((Gui.twoControls qt).assign qt (QVariant.int 5))).controls
        = [{ shown := QVariant.int 5 }, { shown := QVariant.int 5 }]
      ∧ (Gui.processEvents qt (8 + m) ((Gui.twoControls qt).assign qt (QVariant.int 5))).log
        = (Gui.twoControls qt).log ++ [Event.bundleChanged,
            Event.valueChanged "k" (QVariant.int 5), Event.valueChanged "k" (QVariant.int 5),
            Event.valueChanged "k" (QVariant.int 5)]
      ∧ (Gui.processEvents qt (8 + m)
          ((Gui.twoControls qt).assign qt (QVariant.int 5))).changed
        = [(0, QVariant.int 5), (1, QVariant.int 5)]
      ∧ (Gui.processEvents qt 7 ((Gui.twoControls qt).assign qt (QVariant.int 5))).queue
        ≠ [] := by
  have h := Gui.twoControls_run qt
  rw [Gui.processEvents_settled qt 8 m _ h.1]
  refine ⟨h.1, h.2.1, h.2.2.1, h.2.2.2.1, ?_⟩
  rw [h.2.2.2.2]
  exact List.cons_ne_nil _ _

/-- C14 fails as stated: in that scenario, once the queue is empty and both
controls show `5`, the signals raised since the assignment contain three
`valueChanged`, not one. -/
theorem two_controls_not_one_valueChanged :
    (Gui.processEvents QtConversions.sample 8
        ((Gui.twoControls QtConversions.sample).assign QtConversions.sample
          (QVariant.int 5))).queue = []
      ∧ (((Gui.processEvents QtConversions.sample 8
          ((Gui.twoControls QtConversions.sample).assign QtConversions.sample
            (QVariant.int 5))).log.drop (Gui.twoControls QtConversions.sample).log.length).filter
              Event.isValueChanged).length = 3 := by
  have h := Gui.twoControls_run QtConversions.sample
  refine ⟨h.1, ?_⟩
  rw [h.2.2.1, List.drop_left]
  rfl

/-- C15: one `value<bool>` with default `false`, tied to one check box over
queued connections; the user checks the box.  The event loop empties the
queue after two deliveries (the box's `toggled(true)` reaching `setValue`,
then the value's `valueChanged(true)` reaching `setChecked`), whatever more
it is allowed; the value then reads `true`, it has raised `valueChanged`
exactly once, and the box has raised `toggled` exactly once, for the user's
action. -/
theorem toggle_round_trip (qt : QtConversions) (m : Nat) :
    (Gui.processEvents qt (2 + m)
        ((Gui.oneToggle qt).controlSet 0 (QVariant.bool true))).queue = []
      ∧ (Gui.processEvents qt 1
          ((Gui.oneToggle qt).controlSet 0 (QVariant.bool true))).queue
        = [Posted.controlSet 0 (QVariant.bool true)]
      ∧ (Gui.processEvents qt (2 + m)
          ((Gui.oneToggle qt).controlSet 0 (QVariant.bool true))).b.get_QVariant "k"
        = QVariant.bool true
      ∧ (Gui.processEvents qt (2 + m)
          ((Gui.oneToggle qt).controlSet 0 (QVariant.bool true))).log
        = (Gui.oneToggle qt).log
            ++ [Event.bundleChanged, Event.valueChanged "k" (QVariant.bool true)]
      ∧ (Gui.processEvents qt (2 + m)
          ((Gui.oneToggle qt).controlSet 0 (QVariant.bool true))).changed
        = [(0, QVariant.bool true)]
      ∧ (Gui.processEvents qt (2 + m)
          ((Gui.oneToggle qt).controlSet 0 (QVariant.bool true))).controls
        = [{ shown := QVariant.bool true }]
      ∧ (Gui.processEvents qt (2 + m)
          ((Gui.oneToggle qt).controlSet 0 (QVariant.bool true))).b.get qt Ty.bool "k"
        = true := by
  have h := Gui.oneToggle_run qt
  rw [Gui.processEvents_settled qt 2 m _ h.1]
  refine ⟨h.1, h.2.2.2.2.2.1, h.2.2.2.2.1, h.2.2.1, h.2.2.2.1, h.2.1, ?_⟩
  have hq : QMap.value (Gui.processEvents qt 2
      ((Gui.oneToggle qt).controlSet 0 (QVariant.bool true))).b.transient.map "k"
      = QVariant.bool true := h.2.2.2.2.1
  unfold impl_bundle.get group.get
  rw [hq]
  rfl

/-! ## `reload` with and without attached values -/

theorem impl_bundle.store_modified_mono (b : impl_bundle) (k : String) (d : QVariant)
    (h : b.modified = true) : (b.store k d).1.modified = true := by
  rcases impl_bundle.store_cases b k d with hs | hs <;> rw [hs]
  exact h

theorem impl_bundle.store_contains_mono (b : impl_bundle) (k j : String) (d : QVariant)
    (h : b.transient.contains j = true) : (b.store k d).1.transient.contains j = true := by
  rcases impl_bundle.store_cases b k d with hs | hs <;> rw [hs]
  · exact h
  · have h2 : QMap.contains b.transient.map j = true := h
    simp [group.put, group.contains, QMap.contains_insert, h2]

theorem impl_bundle.store_contains_of_ne (b : impl_bundle) (k j : String) (d : QVariant)
    (h : j ≠ k) : (b.store k d).1.transient.contains j = b.transient.contains j := by
  rcases impl_bundle.store_cases b k d with hs | hs <;> rw [hs]
  simp [group.put, group.contains, QMap.contains_insert, h]

theorem impl_bundle.store_get_QVariant_of_ne (b : impl_bundle) (k j : String) (d : QVariant)
    (h : j ≠ k) : (b.store k d).1.get_QVariant j = b.get_QVariant j := by
  rcases impl_bundle.store_cases b k d with hs | hs <;> rw [hs]
  simp [impl_bundle.get_QVariant, group.get_QVariant, group.put, qcruft_to_t_QVariant,
    QMap.value_insert, h]

theorem impl_bundle.store_of_absent (b : impl_bundle) (k : String) (d : QVariant)
    (h : b.transient.contains k = false) :
    b.store k d
      = ({ b with modified := true, transient := b.transient.put k d },
         (if !b.modified then [Event.qDebug k (b.transient.get_QVariant k) d] else [])
           ++ [Event.bundleChanged]) := by
  unfold impl_bundle.store
  rw [if_pos (by simp [h])]

theorem rereadAll_contains (qt : QtConversions) (vs : List value) (b : impl_bundle)
    (x : value) (hx : x ∈ vs ∨ b.transient.contains x.self_name = true) :
    (rereadAll qt vs b).1.transient.contains x.self_name = true := by
  induction vs generalizing b with
  | nil =>
    rcases hx with hx | hx
    · cases hx
    · exact hx
  | cons y ys ih =>
    show (rereadAll qt ys (y.reread_value qt b).1).1.transient.contains x.self_name = true
    apply ih
    rcases hx with hx | hx
    · rcases List.mem_cons.1 hx with h | h
      · subst h
        exact Or.inr (impl_bundle.store_entry b _ _).1
      · exact Or.inl h
    · exact Or.inr (impl_bundle.store_contains_mono b _ _ _ hx)

theorem rereadAll_modified_mono (qt : QtConversions) (vs : List value) (b : impl_bundle)
    (h : b.modified = true) : (rereadAll qt vs b).1.modified = true := by
  induction vs generalizing b with
  | nil => exact h
  | cons y ys ih => exact ih _ (impl_bundle.store_modified_mono b _ _ h)

theorem rereadAll_modified (qt : QtConversions) (vs : List value) (b : impl_bundle)
    (x : value) (hx : x ∈ vs) (h : b.transient.contains x.self_name = false) :
    (rereadAll qt vs b).1.modified = true := by
  induction vs generalizing b with
  | nil => cases hx
  | cons y ys ih =>
    show (rereadAll qt ys (y.reread_value qt b).1).1.modified = true
    by_cases hn : y.self_name = x.self_name
    · apply rereadAll_modified_mono
      have h2 : b.transient.contains y.self_name = false := by rw [hn]; exact h
      show (b.store y.self_name _).1.modified = true
      rw [impl_bundle.store_of_absent b _ _ h2]
    · have hx2 : x ∈ ys := by
        rcases List.mem_cons.1 hx with h3 | h3
        · exact absurd (by rw [h3]) hn
        · exact h3
      apply ih _ hx2
      show (b.store y.self_name _).1.transient.contains x.self_name = false
      rw [impl_bundle.store_contains_of_ne b _ _ _ (fun e => hn e.symm)]
      exact h

theorem rereadAll_bundleChanged (qt : QtConversions) (vs : List value) (b : impl_bundle)
    (x : value) (hx : x ∈ vs) (h : b.transient.contains x.self_name = false) :
    Event.bundleChanged ∈ (rereadAll qt vs b).2 := by
  induction vs generalizing b with
  | nil => cases hx
  | cons y ys ih =>
    show Event.bundleChanged
      ∈ (y.reread_value qt b).2 ++ (rereadAll qt ys (y.reread_value qt b).1).2
    by_cases hn : y.self_name = x.self_name
    · have h2 : b.transient.contains y.self_name = false := by rw [hn]; exact h
      apply List.mem_append_left
      show Event.bundleChanged ∈ (b.store y.self_name _).2 ++ _
      rw [impl_bundle.store_of_absent b _ _ h2]
      simp
    · have hx2 : x ∈ ys := by
        rcases List.mem_cons.1 hx with h3 | h3
        · exact absurd (by rw [h3]) hn
        · exact h3
      apply List.mem_append_right
      apply ih _ hx2
      show (b.store y.self_name _).1.transient.contains x.self_name = false
      rw [impl_bundle.store_contains_of_ne b _ _ _ (fun e => hn e.symm)]
      exact h

/-- C17, as amended: on a bundle with a `value<T>(k, def)` attached, where
every value attached to `k` is a `value<T>`: after `reload()` and the
`reread_value` slots it runs, `transient` contains `k` and `get<T>(k)` is the
ini file's entry of `k` coerced to `T`.  When the section has no `k`, that is
`T()` whatever `def` is, the `modified` flag is true and `bundleChanged` was
raised: at least once, and exactly once when this value is the only one
attached. -/
theorem reload_rereads_attached (qt : QtConversions) (w : World) (x : value)
    (hx : x ∈ w.values)
    (hT : ∀ y ∈ w.values, y.self_name = x.self_name → y.T = x.T) :
    (w.reload qt).b.transient.contains x.self_name = true
      ∧ (w.reload qt).b.get qt x.T x.self_name
        = qcruft_to_t qt x.T (w.iniFile.value w.b.group_name x.self_name)
      ∧ (w.iniFile.contains w.b.group_name x.self_name = false →
          (w.reload qt).b.get qt x.T x.self_name = x.T.zero
            ∧ (w.reload qt).b.modifiedp = true
            ∧ Event.bundleChanged ∈ (w.reload qt).log.drop w.log.length
            ∧ (w.values = [x] →
                ((w.reload qt).log.drop w.log.length).count Event.bundleChanged = 1)) := by
  have hc0 : (w.b.reload w.iniFile).1.transient.contains x.self_name
      = w.iniFile.contains w.b.group_name x.self_name :=
    group.ctor_contains w.iniFile w.b.group_name x.self_name
  have hget : (w.reload qt).b.get qt x.T x.self_name
      = qcruft_to_t qt x.T (w.iniFile.value w.b.group_name x.self_name) := by
    show (rereadAll qt w.values (w.b.reload w.iniFile).1).1.get qt x.T x.self_name = _
    rw [rereadAll_get qt w.values _ x.self_name x.T hT]
    show qcruft_to_t qt x.T ((group.ctor w.iniFile w.b.group_name).get_QVariant x.self_name) = _
    rw [group.ctor_get_QVariant]
  have hlog : (w.reload qt).log.drop w.log.length
      = Event.reloaded :: (rereadAll qt w.values (w.b.reload w.iniFile).1).2 := by
    show (w.log ++ [Event.reloaded]
      ++ (rereadAll qt w.values (w.b.reload w.iniFile).1).2).drop w.log.length = _
    rw [List.append_assoc, List.drop_left]
    rfl
  refine ⟨rereadAll_contains qt w.values _ x (Or.inl hx), hget, ?_⟩
  intro habs
  rw [← hc0] at habs
  refine ⟨?_, rereadAll_modified qt w.values _ x hx habs, ?_, ?_⟩
  · rw [hget]
    have hinv : w.iniFile.value w.b.group_name x.self_name = QVariant.invalid := by
      rw [hc0] at habs
      exact QMap.value_of_not_contains w.iniFile (w.b.group_name, x.self_name) habs
    rw [hinv, qcruft_to_t_invalid]
  · rw [hlog]
    exact List.mem_cons_of_mem _ (rereadAll_bundleChanged qt w.values _ x hx habs)
  · intro hone
    rw [hlog, hone]
    have hst := impl_bundle.store_of_absent (w.b.reload w.iniFile).1 x.self_name
      (qVariantFromValue x.T (qcruft_to_t qt x.T
        ((w.b.reload w.iniFile).1.get_QVariant x.self_name))) habs
    show (Event.reloaded :: (((w.b.reload w.iniFile).1.store x.self_name
      (qVariantFromValue x.T (qcruft_to_t qt x.T
        ((w.b.reload w.iniFile).1.get_QVariant x.self_name)))).2
          ++ [Event.valueChanged x.self_name (qVariantFromValue x.T (qcruft_to_t qt x.T
            ((w.b.reload w.iniFile).1.get_QVariant x.self_name)))] ++ [])).count
      Event.bundleChanged = 1
    rw [hst]
    cases (w.b.reload w.iniFile).1.modified <;> simp [List.count_cons]

/-- C17 at a concrete input: a `value<int>` with default `7` on key "k" of an
empty section; after `reload()` the value reads `0`, not its default. -/
theorem reload_rereads_attached_witness :
    ((World.init [] "s").step QtConversions.sample
        (Op.construct (value.mk "k" Ty.int (7 : Int)))).b.get QtConversions.sample
          Ty.int "k" = (7 : Int)
      ∧ (((World.init [] "s").step QtConversions.sample
          (Op.construct (value.mk "k" Ty.int (7 : Int)))).reload
            QtConversions.sample).b.get QtConversions.sample Ty.int "k" = (0 : Int)
      ∧ (0 : Int) ≠ 7 :=
  ⟨by decide,
   ((reload_rereads_attached QtConversions.sample
      ((World.init [] "s").step QtConversions.sample
        (Op.construct (value.mk "k" Ty.int (7 : Int))))
      (value.mk "k" Ty.int (7 : Int)) (by simp [World.step, World.init])
      (by
        intro y hy _
        have hy2 : y ∈ [value.mk "k" Ty.int (7 : Int)] := hy
        rw [List.mem_singleton] at hy2
        rw [hy2])).2.2 (by decide)).1,
   by decide⟩

/-- C17 fails as stated.  Section "s" was saved with `k = 5`; with a
`value<int>` and a `value<bool>` both attached to "k", `reload()` leaves
`get<int>("k")` at `1`, not at the persisted `5`, the second slot having
stored `true` over it.  And on an empty section with a `value<int>` on "a"
and another on "b", `reload()` raises `bundleChanged` twice, not once. -/
theorem reload_with_two_values_attached :
    ((World.init [(("s", "k"), QVariant.int 5)] "s").run QtConversions.sample
        [Op.construct (value.mk "k" Ty.int (0 : Int)),
         Op.construct (value.mk "k" Ty.bool false),
         Op.reload]).b.get QtConversions.sample Ty.int "k" = (1 : Int)
    ∧ qcruft_to_t QtConversions.sample Ty.int
        (QSettings.value [(("s", "k"), QVariant.int 5)] "s" "k") = (5 : Int)
    ∧ ((((World.init [] "s").run QtConversions.sample
          [Op.construct (value.mk "a" Ty.int (0 : Int)),
           Op.construct (value.mk "b" Ty.int (0 : Int))]).reload
            QtConversions.sample).log.drop
        ((World.init [] "s").run QtConversions.sample
          [Op.construct (value.mk "a" Ty.int (0 : Int)),
           Op.construct (value.mk "b" Ty.int (0 : Int))]).log.length).count
          Event.bundleChanged = 2 := by
  decide

/-- C18: on a bundle with no value attached, `reload()` leaves the `modified`
flag as it was, raises `reloaded` once and nothing else, and makes
`transient` equal to `saved`.  Hence after a `store(k, v)` that wrote (the
key was absent or its entry differed) and a `reload()`, `modifiedp()` still
returns true although `transient` equals `saved`. -/
theorem reload_keeps_modified (qt : QtConversions) (w : World) (hv : w.values = []) :
    (w.reload qt).b.modifiedp = w.b.modifiedp
      ∧ (w.reload qt).log = w.log ++ [Event.reloaded]
      ∧ (w.reload qt).b.transient = (w.reload qt).b.saved
      ∧ (∀ (k : String) (v : QVariant),
          ((w.step qt (Op.store k v)).reload qt).b.modifiedp
              = (w.step qt (Op.store k v)).b.modifiedp
            ∧ ((w.step qt (Op.store k v)).reload qt).b.transient
              = ((w.step qt (Op.store k v)).reload qt).b.saved
            ∧ ((w.b.transient.contains k = false
                  ∨ QVariant.eq (w.b.transient.get_QVariant k) v = false) →
                ((w.step qt (Op.store k v)).reload qt).b.modifiedp = true)) := by
  have h1 : ∀ u : World, u.values = [] →
      (u.reload qt).b = (u.b.reload u.iniFile).1
        ∧ (u.reload qt).log = u.log ++ [Event.reloaded] := by
    intro u hu
    unfold World.reload
    rw [hu]
    simp [rereadAll, impl_bundle.reload]
  refine ⟨?_, (h1 w hv).2, ?_, ?_⟩
  · rw [(h1 w hv).1]; rfl
  · rw [(h1 w hv).1]; rfl
  · intro k v
    have hv2 : (w.step qt (Op.store k v)).values = [] := hv
    rw [(h1 _ hv2).1]
    refine ⟨rfl, rfl, ?_⟩
    intro hgate
    show (w.b.store k v).1.modified = true
    have hc : (!w.b.transient.contains k || QVariant.ne v (w.b.transient.get_QVariant k))
        = true := by
      rcases hgate with h | h
      · simp [h]
      · rw [QVariant.variant_eq_comm] at h
        simp [QVariant.ne, h]
    rw [impl_bundle.store_eq, if_pos hc]

/-- C18 at a concrete input: `5` stored under "k" of an empty bundle, then a
reload. -/
theorem reload_keeps_modified_witness :
    (World.init [] "s").values = []
      ∧ (((World.init [] "s").step QtConversions.sample
          (Op.store "k" (QVariant.int 5))).reload QtConversions.sample).b.modifiedp = true :=
  ⟨rfl, ((reload_keeps_modified QtConversions.sample (World.init [] "s") rfl).2.2.2 "k"
    (QVariant.int 5)).2.2 (Or.inl (by decide))⟩

/-! ## Assignment read back, and the frame of `store` and `save` -/

/-- C19, as amended: after the assignment `v = x` on a `value<T>`, reading
through `operator T()` returns the datum `x` itself, whether the store wrote
or was gated out, except when `x` is a double zero and the entry already
held a double zero (of either sign): then the gate leaves the entry and the
zero that was there is read.  In every case the datum read compares `==` to
`x`, unless `x` is a NaN; and `qcruft_to_t<T>(qVariantFromValue<T>(x))` is
`x`. -/
theorem assign_then_read (qt : QtConversions) (x : value) (b : impl_bundle)
    (d : x.T.denote) :
    qcruft_to_t qt x.T (qVariantFromValue x.T d) = d
      ∧ (x.read qt (x.assignT qt b d).1 = d
        ∨ ((qVariantFromValue x.T d).isDoubleZero = true
            ∧ (qVariantFromValue x.T (x.read qt (x.assignT qt b d).1)).isDoubleZero
              = true))
      ∧ QVariant.eq (qVariantFromValue x.T (x.read qt (x.assignT qt b d).1))
          (qVariantFromValue x.T d)
        = !(qVariantFromValue x.T d).isDoubleNaN := by
  have key : x.read qt (x.assignT qt b d).1 = d
      ∨ ((qVariantFromValue x.T d).isDoubleZero = true
          ∧ (qVariantFromValue x.T (x.read qt (x.assignT qt b d).1)).isDoubleZero
            = true) := by
    have hb : (x.assignT qt b d).1 = (b.store x.self_name (qVariantFromValue x.T d)).1 := by
      unfold value.assignT value.assign
      rw [qcruft_to_t_qVariantFromValue]
    have hread : x.read qt (x.assignT qt b d).1
        = qcruft_to_t qt x.T
            ((b.store x.self_name (qVariantFromValue x.T d)).1.get_QVariant x.self_name) := by
      rw [hb]
      rfl
    rw [hread]
    obtain ⟨_, _, he⟩ := impl_bundle.store_entry b x.self_name (qVariantFromValue x.T d)
    rcases he with he | he
    · rw [he]
      exact Or.inl (qcruft_to_t_qVariantFromValue qt x.T d)
    · rcases QVariant.eq_qVariantFromValue x.T d _ he with h | h
      · rw [h]
        exact Or.inl (qcruft_to_t_qVariantFromValue qt x.T d)
      · refine Or.inr ⟨h.1, ?_⟩
        obtain ⟨name, T, dflt⟩ := x
        simp only at d h ⊢
        revert h
        generalize (b.store name (qVariantFromValue T d)).1.get_QVariant name = e
        intro h
        cases T <;> cases e <;> simp_all [qVariantFromValue, QVariant.isDoubleZero,
          qcruft_to_t, QVariant.toDouble]
  exact ⟨qcruft_to_t_qVariantFromValue qt x.T d, key,
    qVariantFromValue_eq_of_read x.T d _ key⟩

/-- C19 fails as stated, whichever way "returns x" is read.  A
`value<double>` with default `0.0` is constructed on "k" of an empty bundle,
which stores `0.0`; assigning `-0.0` is gated out as equal, and the value
reads `0.0`, which is not the datum `-0.0` that was assigned.  After
assigning a NaN the value reads that NaN, and the C++ comparison of the
datum read with the NaN assigned is false. -/
theorem assign_read_not_the_assigned_datum :
    ((value.mk "k" Ty.double QDouble.zero).assignT QtConversions.sample
        ((value.mk "k" Ty.double QDouble.zero).ctor QtConversions.sample
          (impl_bundle.ctor [] "s")).1 QDouble.negZero).1.get
      QtConversions.sample Ty.double "k" = QDouble.zero
    ∧ QDouble.zero ≠ QDouble.negZero
    ∧ QDouble.eq
        (((value.mk "k" Ty.double QDouble.zero).assignT QtConversions.sample
          ((value.mk "k" Ty.double QDouble.zero).ctor QtConversions.sample
            (impl_bundle.ctor [] "s")).1 QDouble.qNaN).1.get
          QtConversions.sample Ty.double "k")
        QDouble.qNaN = false := by
  decide

/-- C20: `store(k, v)` leaves `saved` unchanged and, for every key `j` other
than `k`, leaves the presence and the value of `j` in `transient` unchanged
(as `group::put` does on the map); `save()` leaves `transient` unchanged and
raises no notification. -/
theorem store_save_frame (qt : QtConversions) (b : impl_bundle) (k j : String) (v : QVariant)
    (iniFile : QSettings) (w : World) (g : group) (hj : j ≠ k) :
    (b.store k v).1.saved = b.saved
      ∧ (b.store k v).1.transient.contains j = b.transient.contains j
      ∧ (b.store k v).1.get_QVariant j = b.get_QVariant j
      ∧ (g.put k v).contains j = g.contains j
      ∧ (g.put k v).get_QVariant j = g.get_QVariant j
      ∧ (b.save iniFile).1.transient = b.transient
      ∧ (w.step qt Op.save).b.transient = w.b.transient
      ∧ (w.step qt Op.save).log = w.log := by
  refine ⟨impl_bundle.store_saved b k v, impl_bundle.store_contains_of_ne b k j v hj,
    impl_bundle.store_get_QVariant_of_ne b k j v hj, ?_, ?_, rfl, rfl, rfl⟩
  · simp [group.put, group.contains, QMap.contains_insert, hj]
  · simp [group.get_QVariant, group.put, qcruft_to_t_QVariant, QMap.value_insert, hj]

/-- C20 at a concrete input: with `1` under "a", storing `2` under "b" leaves
"a" as it was. -/
theorem store_save_frame_witness :
    "a" ≠ "b"
      ∧ (((impl_bundle.ctor [] "s").store "a" (QVariant.int 1)).1.store "b"
          (QVariant.int 2)).1.get_QVariant "a" = QVariant.int 1 :=
  ⟨by decide,
   ((store_save_frame QtConversions.sample
      ((impl_bundle.ctor [] "s").store "a" (QVariant.int 1)).1 "b" "a" (QVariant.int 2) []
      (World.init [] "s") (group.ctor [] "s") (by decide)).2.2.1).trans (by decide)⟩

end options
